import Mathlib

/-!
# The `projects` commands of the Doppler CLI (`cmd/projects.go`)

A shallow embedding of `src/cmd/projects.go`.

* Go strings are byte sequences (`GoString`), Go slices distinguish `nil` from an
  empty slice (`Slice`).
* Everything the commands do to the outside world is recorded, in order, in the
  `trace` of a `World`: calls of the API client, bytes written to standard output by
  `fmt.Println`, tables handed to `utils.PrintTable`, fatal errors handed to `utils.Err`.
* The API client (package `api`) is not part of the file; it is a parameter
  (`Client`), threaded through an arbitrary server state `σ`.
* `encoding/json` and `unicode/utf8` are the Go standard library; the parts that
  `json.Marshal` exercises on a record of five strings are written out below.
-/

namespace DopplerCLI

/-! ## Values -/

/-- A Go `string`: a sequence of bytes, not necessarily valid UTF-8. -/
abbrev GoString := List (Fin 256)

/-- Go conversion `byte(n)` of a non-negative integer: the low 8 bits. -/
def byte (n : Nat) : Fin 256 := ⟨n % 256, Nat.mod_lt n (by decide)⟩

/-- The bytes of an ASCII literal of the source, such as `"id"`. -/
def str (s : String) : GoString := s.toList.map (fun c => byte c.toNat)

/-- A Go slice value. `nil` is the zero value (what `var rows [][]string` declares);
`mk []` is an empty slice that is not nil. -/
inductive Slice (α : Type) where
  | nil : Slice α
  | mk (elems : List α) : Slice α
  deriving DecidableEq

namespace Slice

/-- The elements a `for ... range` loop visits, in order. -/
def toList {α : Type} : Slice α → List α
  | nil => []
  | mk elems => elems

/-- Go `len(s)`. -/
def len {α : Type} (s : Slice α) : Nat := s.toList.length

/-- Go `append(s, x)`: never nil. -/
def append {α : Type} (s : Slice α) (x : α) : Slice α := mk (s.toList ++ [x])

end Slice

/-- The record `api.ProjectInfo`, as far as `projects.go` uses it: five string fields. -/
structure ProjectInfo where
  ID : GoString
  Name : GoString
  Description : GoString
  SetupAt : GoString
  CreatedAt : GoString
  deriving DecidableEq

/-! ## `unicode/utf8` -/

namespace utf8

/-- The replacement rune U+FFFD. -/
def RuneError : Nat := 0xFFFD

/-- Bytes below `RuneSelf` are single-byte runes. -/
def RuneSelf : Nat := 0x80

/-- Go `utf8.DecodeRuneInString`: the first rune of `s` and its width in bytes.
The result is `(RuneError, 0)` for the empty string and `(RuneError, 1)` for an
invalid encoding. The masks and shifts of the Go code are written with `%`, `*`
and `+` (the bit fields do not overlap). -/
def DecodeRuneInString (s : GoString) : Nat × Nat :=
  match s with
  | [] => (RuneError, 0)
  | s0 :: t =>
    if s0.val < 0x80 then (s0.val, 1)
    else if s0.val < 0xC2 then (RuneError, 1)
    else if s0.val < 0xE0 then
      match t with
      | s1 :: _ =>
        if s1.val < 0x80 ∨ 0xBF < s1.val then (RuneError, 1)
        else ((s0.val % 32) * 64 + s1.val % 64, 2)
      | _ => (RuneError, 1)
    else if s0.val < 0xF0 then
      match t with
      | s1 :: s2 :: _ =>
        if s1.val < (if s0.val = 0xE0 then 0xA0 else 0x80)
            ∨ (if s0.val = 0xED then 0x9F else 0xBF) < s1.val then (RuneError, 1)
        else if s2.val < 0x80 ∨ 0xBF < s2.val then (RuneError, 1)
        else ((s0.val % 16) * 4096 + (s1.val % 64) * 64 + s2.val % 64, 3)
      | _ => (RuneError, 1)
    else if s0.val < 0xF5 then
      match t with
      | s1 :: s2 :: s3 :: _ =>
        if s1.val < (if s0.val = 0xF0 then 0x90 else 0x80)
            ∨ (if s0.val = 0xF4 then 0x8F else 0xBF) < s1.val then (RuneError, 1)
        else if s2.val < 0x80 ∨ 0xBF < s2.val then (RuneError, 1)
        else if s3.val < 0x80 ∨ 0xBF < s3.val then (RuneError, 1)
        else ((s0.val % 8) * 262144 + (s1.val % 64) * 4096 + (s2.val % 64) * 64
                + s3.val % 64, 4)
      | _ => (RuneError, 1)
    else (RuneError, 1)

/-- Go `utf8.EncodeRune`: the UTF-8 encoding of rune `r`; surrogates and values
above U+10FFFF are encoded as U+FFFD. -/
def EncodeRune (r : Nat) : GoString :=
  if r ≤ 0x7F then [byte r]
  else if r ≤ 0x7FF then [byte (0xC0 + r / 64), byte (0x80 + r % 64)]
  else if 0x10FFFF < r ∨ (0xD800 ≤ r ∧ r ≤ 0xDFFF) then [0xEF, 0xBF, 0xBD]
  else if r ≤ 0xFFFF then
    [byte (0xE0 + r / 4096), byte (0x80 + (r / 64) % 64), byte (0x80 + r % 64)]
  else
    [byte (0xF0 + r / 262144), byte (0x80 + (r / 4096) % 64),
     byte (0x80 + (r / 64) % 64), byte (0x80 + r % 64)]

/-- Scan of `utf8.ValidString`, with `fuel` bounding the number of runes. -/
def ValidStringAux : Nat → GoString → Bool
  | _, [] => true
  | 0, _ :: _ => false
  | fuel + 1, b :: rest =>
    let d := DecodeRuneInString (b :: rest)
    if d.1 = RuneError ∧ d.2 = 1 then false
    else ValidStringAux fuel ((b :: rest).drop d.2)

/-- Go `utf8.ValidString`: `s` consists entirely of valid UTF-8-encoded runes. -/
def ValidString (s : GoString) : Bool := ValidStringAux s.length s

/-- Scan of `coerce`, with `fuel` bounding the number of runes. -/
def coerceAux : Nat → GoString → GoString
  | _, [] => []
  | 0, _ :: _ => []
  | fuel + 1, b :: rest =>
    let d := DecodeRuneInString (b :: rest)
    if d.1 = RuneError ∧ d.2 = 1 then [0xEF, 0xBF, 0xBD] ++ coerceAux fuel rest
    else (b :: rest).take d.2 ++ coerceAux fuel ((b :: rest).drop d.2)

/-- The string `s` coerced to valid UTF-8: every byte at which no valid rune starts
is replaced by the three bytes of U+FFFD, every valid rune is kept as it is. -/
def coerce (s : GoString) : GoString := coerceAux s.length s

end utf8

/-! ## `encoding/json`: encoding -/

namespace json

/-- The table `htmlSafeSet`: the ASCII bytes written without escaping when HTML
escaping is on (the default of `json.Marshal`). -/
def htmlSafeSet (b : Fin 256) : Bool :=
  decide (0x20 ≤ b.val ∧ b.val < 0x80 ∧ b.val ≠ 0x22 ∧ b.val ≠ 0x26 ∧ b.val ≠ 0x3C
            ∧ b.val ≠ 0x3E ∧ b.val ≠ 0x5C)

/-- The digit table `hex = "0123456789abcdef"`. -/
def hex (n : Nat) : Fin 256 := if n < 10 then byte (0x30 + n) else byte (0x61 + (n - 10))

/-- What the encoder writes after the backslash for an ASCII byte that is not safe. -/
def escapeByte (b : Fin 256) : GoString :=
  if b.val = 0x5C ∨ b.val = 0x22 then [b]
  else if b.val = 0x0A then [0x6E]
  else if b.val = 0x0D then [0x72]
  else if b.val = 0x09 then [0x74]
  else [0x75, 0x30, 0x30, hex (b.val / 16), hex (b.val % 16)]

/-- Body of the loop of `encodeState.string` (with `escapeHTML = true`), one rune
per step; `fuel` bounds the number of steps. -/
def stringAux : Nat → GoString → GoString
  | _, [] => []
  | 0, _ :: _ => []
  | fuel + 1, b :: rest =>
    if b.val < utf8.RuneSelf then
      if htmlSafeSet b then b :: stringAux fuel rest
      else 0x5C :: escapeByte b ++ stringAux fuel rest
    else
      let d := utf8.DecodeRuneInString (b :: rest)
      if d.1 = utf8.RuneError ∧ d.2 = 1 then
        [0x5C, 0x75, 0x66, 0x66, 0x66, 0x64] ++ stringAux fuel rest
      else if d.1 = 0x2028 ∨ d.1 = 0x2029 then
        [0x5C, 0x75, 0x32, 0x30, 0x32, hex (d.1 % 16)]
          ++ stringAux fuel ((b :: rest).drop d.2)
      else
        (b :: rest).take d.2 ++ stringAux fuel ((b :: rest).drop d.2)

/-- Go `encodeState.string`: `s` as a quoted JSON string. -/
def encodeString (s : GoString) : GoString :=
  0x22 :: stringAux s.length s ++ [0x22]

/-- Modelled from the spec: the declaration of `api.ProjectInfo` (and with it the
`json` tag of each field) is outside the source file; the member names are the
column names the file itself prints: id, name, description, setup_at, created_at. -/
def fieldNames : List GoString :=
  [str "id", str "name", str "description", str "setup_at", str "created_at"]

/-- The field values of a record, in declaration order. -/
def fieldValues (p : ProjectInfo) : List GoString :=
  [p.ID, p.Name, p.Description, p.SetupAt, p.CreatedAt]

/-- Members of an object: `"name":value` separated by commas. -/
def encodeMembers : List GoString → List GoString → GoString
  | n :: ns, v :: vs =>
    encodeString n ++ [0x3A] ++ encodeString v
      ++ (match ns with
          | [] => []
          | _ :: _ => 0x2C :: encodeMembers ns vs)
  | _, _ => []

/-- The struct encoder on a `ProjectInfo`: a JSON object. -/
def encodeProjectInfo (p : ProjectInfo) : GoString :=
  0x7B :: encodeMembers fieldNames (fieldValues p) ++ [0x7D]

/-- Elements of an array, separated by commas. -/
def encodeElems : List ProjectInfo → GoString
  | [] => []
  | [p] => encodeProjectInfo p
  | p :: q :: ps => encodeProjectInfo p ++ 0x2C :: encodeElems (q :: ps)

/-- The slice encoder on a `[]ProjectInfo`: `null` for a nil slice, an array otherwise. -/
def encodeProjects : Slice ProjectInfo → GoString
  | Slice.nil => str "null"
  | Slice.mk elems => 0x5B :: encodeElems elems ++ [0x5D]

/-- Go `json.Marshal` on an `api.ProjectInfo`. -/
def MarshalProjectInfo (info : ProjectInfo) : Except String GoString :=
  Except.ok (encodeProjectInfo info)

/-- Go `json.Marshal` on a `[]api.ProjectInfo`. -/
def MarshalProjects (info : Slice ProjectInfo) : Except String GoString :=
  Except.ok (encodeProjects info)

end json

/-! ## `encoding/json`: decoding

The part of `json.Unmarshal` that reads back what `json.Marshal` writes for a
`ProjectInfo` and a `[]ProjectInfo`: objects whose members are the five named strings
(in any order), arrays of such objects, `null` for a slice, and JSON's insignificant
whitespace. The result `none` stands for an error of `Unmarshal` or for a document
outside this part. -/

namespace utf16

/-- Go `utf16.IsSurrogate`. -/
def IsSurrogate (r : Nat) : Bool := decide (0xD800 ≤ r ∧ r < 0xE000)

/-- Go `utf16.DecodeRune`: the rune of a surrogate pair, U+FFFD when it is not one. -/
def DecodeRune (r1 r2 : Nat) : Nat :=
  if 0xD800 ≤ r1 ∧ r1 < 0xDC00 ∧ 0xDC00 ≤ r2 ∧ r2 < 0xE000 then
    (r1 - 0xD800) * 1024 + (r2 - 0xDC00) + 0x10000
  else 0xFFFD

end utf16

namespace json

/-- The scanner's `isSpace`: space, tab, carriage return, newline. -/
def isSpace (c : Fin 256) : Bool :=
  decide (c.val = 0x20 ∨ c.val = 0x09 ∨ c.val = 0x0D ∨ c.val = 0x0A)

/-- Skip insignificant whitespace. -/
def skipSpace : GoString → GoString
  | [] => []
  | c :: rest => if isSpace c then skipSpace rest else c :: rest

/-- The value of a hexadecimal digit, as in `getu4`. -/
def hexValue (c : Fin 256) : Option Nat :=
  if 0x30 ≤ c.val ∧ c.val ≤ 0x39 then some (c.val - 0x30)
  else if 0x61 ≤ c.val ∧ c.val ≤ 0x66 then some (c.val - 0x61 + 10)
  else if 0x41 ≤ c.val ∧ c.val ≤ 0x46 then some (c.val - 0x41 + 10)
  else none

/-- The four hexadecimal digits after a backslash and `u`, and what follows them. -/
def hex4 : GoString → Option (Nat × GoString)
  | c0 :: c1 :: c2 :: c3 :: rest =>
    match hexValue c0, hexValue c1, hexValue c2, hexValue c3 with
    | some v0, some v1, some v2, some v3 => some (v0 * 4096 + v1 * 256 + v2 * 16 + v3, rest)
    | _, _, _, _ => none
  | _ => none

/-- Go `getu4`: the rune of an escape `\uXXXX` at the head of `s`. -/
def getu4 : GoString → Option (Nat × GoString)
  | c0 :: c1 :: rest => if c0 = 0x5C ∧ c1 = 0x75 then hex4 rest else none
  | _ => none

/-- The byte a one-letter escape stands for. -/
def unescape (c : Fin 256) : Option (Fin 256) :=
  if c = 0x22 ∨ c = 0x5C ∨ c = 0x2F then some c
  else if c = 0x62 then some 0x08
  else if c = 0x66 then some 0x0C
  else if c = 0x6E then some 0x0A
  else if c = 0x72 then some 0x0D
  else if c = 0x74 then some 0x09
  else none

/-- A string literal after its opening quote, read up to the closing quote and
unquoted as `unquoteBytes` does: escapes are replaced, raw control characters are
an error, other bytes are coerced to well-formed UTF-8. The result is the string and
the input after the closing quote. -/
def unquoteAux : Nat → GoString → GoString → Option (GoString × GoString)
  | 0, _, _ => none
  | _ + 1, [], _ => none
  | fuel + 1, c :: rest, acc =>
    if c = 0x22 then some (acc, rest)
    else if c = 0x5C then
      match rest with
      | [] => none
      | e :: rest1 =>
        if e = 0x75 then
          match hex4 rest1 with
          | none => none
          | some (rr, rest2) =>
            if utf16.IsSurrogate rr then
              match getu4 rest2 with
              | some (rr1, rest3) =>
                if utf16.DecodeRune rr rr1 ≠ 0xFFFD then
                  unquoteAux fuel rest3 (acc ++ utf8.EncodeRune (utf16.DecodeRune rr rr1))
                else unquoteAux fuel rest2 (acc ++ utf8.EncodeRune 0xFFFD)
              | none => unquoteAux fuel rest2 (acc ++ utf8.EncodeRune 0xFFFD)
            else unquoteAux fuel rest2 (acc ++ utf8.EncodeRune rr)
        else
          match unescape e with
          | none => none
          | some b => unquoteAux fuel rest1 (acc ++ [b])
    else if c.val < 0x20 then none
    else if c.val < utf8.RuneSelf then unquoteAux fuel rest (acc ++ [c])
    else
      let d := utf8.DecodeRuneInString (c :: rest)
      unquoteAux fuel ((c :: rest).drop d.2) (acc ++ utf8.EncodeRune d.1)

/-- A string literal at the head of `s`: its value and the input after it. -/
def decodeString : GoString → Option (GoString × GoString)
  | [] => none
  | q :: rest => if q = 0x22 then unquoteAux rest.length rest [] else none

/-- Store a member value in the field of the record with that member name. -/
def setField (p : ProjectInfo) (key value : GoString) : Option ProjectInfo :=
  if key = str "id" then some { p with ID := value }
  else if key = str "name" then some { p with Name := value }
  else if key = str "description" then some { p with Description := value }
  else if key = str "setup_at" then some { p with SetupAt := value }
  else if key = str "created_at" then some { p with CreatedAt := value }
  else none

/-- The members of an object, from the first key to the closing brace. -/
def decodeMembers : Nat → GoString → ProjectInfo → Option (ProjectInfo × GoString)
  | 0, _, _ => none
  | fuel + 1, s, p =>
    match decodeString (skipSpace s) with
    | none => none
    | some (key, s1) =>
      match skipSpace s1 with
      | [] => none
      | colon :: s2 =>
        if colon = 0x3A then
          match decodeString (skipSpace s2) with
          | none => none
          | some (value, s3) =>
            match setField p key value with
            | none => none
            | some p1 =>
              match skipSpace s3 with
              | [] => none
              | sep :: s4 =>
                if sep = 0x2C then decodeMembers fuel s4 p1
                else if sep = 0x7D then some (p1, s4)
                else none
        else none

/-- An object at the head of `s`, decoded into a zero `ProjectInfo`. -/
def decodeObject (s : GoString) : Option (ProjectInfo × GoString) :=
  match skipSpace s with
  | [] => none
  | lb :: s1 =>
    if lb = 0x7B then
      match skipSpace s1 with
      | [] => none
      | c :: s2 =>
        if c = 0x7D then some (⟨[], [], [], [], []⟩, s2)
        else decodeMembers s1.length s1 ⟨[], [], [], [], []⟩
    else none

/-- The elements of an array, from the first element to the closing bracket. -/
def decodeElems : Nat → GoString → List ProjectInfo → Option (List ProjectInfo × GoString)
  | 0, _, _ => none
  | fuel + 1, s, acc =>
    match decodeObject s with
    | none => none
    | some (p, s1) =>
      match skipSpace s1 with
      | [] => none
      | sep :: s2 =>
        if sep = 0x2C then decodeElems fuel s2 (acc ++ [p])
        else if sep = 0x5D then some (acc ++ [p], s2)
        else none

/-- A `[]ProjectInfo` value at the head of `s`: `null` or an array. -/
def decodeProjects (s : GoString) : Option (Slice ProjectInfo × GoString) :=
  match skipSpace s with
  | [] => none
  | c :: s1 =>
    if c = 0x5B then
      match skipSpace s1 with
      | [] => none
      | c1 :: s2 =>
        if c1 = 0x5D then some (Slice.mk [], s2)
        else
          match decodeElems s1.length s1 [] with
          | none => none
          | some (elems, s3) => some (Slice.mk elems, s3)
    else if c :: s1.take 3 = str "null" then some (Slice.nil, s1.drop 3)
    else none

/-- Go `json.Unmarshal(data, &info)` for `var info api.ProjectInfo`. -/
def UnmarshalProjectInfo (data : GoString) : Option ProjectInfo :=
  match decodeObject data with
  | none => none
  | some (p, rest) => if skipSpace rest = [] then some p else none

/-- Go `json.Unmarshal(data, &info)` for `var info []api.ProjectInfo`. -/
def UnmarshalProjects (data : GoString) : Option (Slice ProjectInfo) :=
  match decodeProjects data with
  | none => none
  | some (info, rest) => if skipSpace rest = [] then some info else none

end json

/-! ## The outside world -/

/-- What a command does to the outside world. The client events record the call and
the string arguments passed to it. -/
inductive Event where
  | GetAPIProjects (apiKey : GoString)
  | GetAPIProject (apiKey project : GoString)
  | CreateAPIProject (apiKey name description : GoString)
  | DeleteAPIProject (apiKey project : GoString)
  | UpdateAPIProject (apiKey project name description : GoString)
  | stdout (bytes : GoString)
  | PrintTable (headers : List GoString) (rows : Slice (List GoString))
  | Err (err : String)
  deriving DecidableEq

namespace Event

/-- The event is a call of the API client. -/
def isClientCall : Event → Bool
  | GetAPIProjects _ => true
  | GetAPIProject _ _ => true
  | CreateAPIProject _ _ _ => true
  | DeleteAPIProject _ _ => true
  | UpdateAPIProject _ _ _ _ => true
  | _ => false

/-- The event is output of the command itself (a JSON line, a table, an error report). -/
def isOutput : Event → Bool
  | stdout _ => true
  | PrintTable _ _ => true
  | Err _ => true
  | _ => false

end Event

/-- The state of the remote service and the events so far, oldest first. -/
structure World (σ : Type) where
  server : σ
  trace : List Event

/-- Append one event to the trace. -/
def World.emit {σ : Type} (w : World σ) (e : Event) : World σ :=
  { w with trace := w.trace ++ [e] }

/-- One resolved configuration entry (`localConfig.Key`, `localConfig.Project`). -/
structure ConfigEntry where
  Value : GoString
  deriving DecidableEq

/-- The result of `configuration.LocalConfig(cmd)`, as far as the file reads it. -/
structure ScopedConfig where
  Key : ConfigEntry
  Project : ConfigEntry
  deriving DecidableEq

/-- A `*cobra.Command` as `Run` sees it: the flag values after parsing, which flags
were set on the command line, and the configuration that resolves for the invocation. -/
structure Command where
  boolFlags : String → Bool
  stringFlags : String → GoString
  Changed : String → Bool
  config : ScopedConfig

/-- The same invocation with boolean flag `flag` set to `v`. -/
def Command.setBool (cmd : Command) (flag : String) (v : Bool) : Command :=
  { cmd with boolFlags := fun f => if f = flag then v else cmd.boolFlags f }

/-- Modelled from the spec: `utils.GetBoolFlag` is outside the source file; it reads
the value of a boolean flag (`--json`, `--silent`). -/
def utils.GetBoolFlag (cmd : Command) (flag : String) : Bool := cmd.boolFlags flag

/-- The expression `cmd.Flag(name).Value.String()`. -/
def Command.FlagValueString (cmd : Command) (flag : String) : GoString := cmd.stringFlags flag

/-- Modelled from the spec: `configuration.LocalConfig` is outside the source file; it
resolves the credential and the default project of the invocation. -/
def configuration.LocalConfig (cmd : Command) : ScopedConfig := cmd.config

/-- The API client, package `api`: outside the source file, a parameter. Each
function may read and change the state of the remote service. The first result of
the Go functions (discarded by every caller in the file) is left out. -/
structure Client (σ : Type) where
  GetAPIProjects : σ → Command → GoString → σ × Slice ProjectInfo
  GetAPIProject : σ → Command → GoString → GoString → σ × ProjectInfo
  CreateAPIProject : σ → Command → GoString → GoString → GoString → σ × ProjectInfo
  DeleteAPIProject : σ → Command → GoString → GoString → σ
  UpdateAPIProject : σ → Command → GoString → GoString → GoString → GoString → σ × ProjectInfo

namespace api

variable {σ : Type}

/-- Call `api.GetAPIProjects(cmd, apiKey)`. -/
def GetAPIProjects (c : Client σ) (cmd : Command) (apiKey : GoString) (w : World σ) :
    Slice ProjectInfo × World σ :=
  let r := c.GetAPIProjects w.server cmd apiKey
  (r.2, { server := r.1, trace := w.trace ++ [Event.GetAPIProjects apiKey] })

/-- Call `api.GetAPIProject(cmd, apiKey, project)`. -/
def GetAPIProject (c : Client σ) (cmd : Command) (apiKey project : GoString) (w : World σ) :
    ProjectInfo × World σ :=
  let r := c.GetAPIProject w.server cmd apiKey project
  (r.2, { server := r.1, trace := w.trace ++ [Event.GetAPIProject apiKey project] })

/-- Call `api.CreateAPIProject(cmd, apiKey, name, description)`. -/
def CreateAPIProject (c : Client σ) (cmd : Command) (apiKey name description : GoString)
    (w : World σ) : ProjectInfo × World σ :=
  let r := c.CreateAPIProject w.server cmd apiKey name description
  (r.2, { server := r.1, trace := w.trace ++ [Event.CreateAPIProject apiKey name description] })

/-- Call `api.DeleteAPIProject(cmd, apiKey, project)`. -/
def DeleteAPIProject (c : Client σ) (cmd : Command) (apiKey project : GoString) (w : World σ) :
    World σ :=
  { server := c.DeleteAPIProject w.server cmd apiKey project,
    trace := w.trace ++ [Event.DeleteAPIProject apiKey project] }

/-- Call `api.UpdateAPIProject(cmd, apiKey, project, name, description)`. -/
def UpdateAPIProject (c : Client σ) (cmd : Command) (apiKey project name description : GoString)
    (w : World σ) : ProjectInfo × World σ :=
  let r := c.UpdateAPIProject w.server cmd apiKey project name description
  (r.2, { server := r.1,
          trace := w.trace ++ [Event.UpdateAPIProject apiKey project name description] })

end api

/-- Go `fmt.Println(s)` for one string: `s` and a newline go to standard output. -/
def fmt.Println {σ : Type} (s : GoString) (w : World σ) : World σ :=
  w.emit (Event.stdout (s ++ [0x0A]))

/-- Modelled from the spec: `utils.PrintTable` is outside the source file; it renders
the table it is handed (a header line, then one line per row). -/
def utils.PrintTable {σ : Type} (headers : List GoString) (rows : Slice (List GoString))
    (w : World σ) : World σ :=
  w.emit (Event.PrintTable headers rows)

/-- Modelled from the spec: `utils.Err` is outside the source file; it reports the
error and ends the process, nothing after it runs. -/
def utils.Err {σ : Type} (err : String) (w : World σ) : World σ :=
  w.emit (Event.Err err)

/-- The lines of a table handed to `utils.PrintTable`: the header, then the rows. -/
def tableLines (headers : List GoString) (rows : Slice (List GoString)) : List (List GoString) :=
  headers :: rows.toList

/-- The events a run added: the trace of `after` beyond that of `before`. -/
def newEvents {σ : Type} (before after : World σ) : List Event :=
  after.trace.drop before.trace.length

/-- The calls of the API client among some events, in order. -/
def clientCalls (es : List Event) : List Event := es.filter Event.isClientCall

/-- The output among some events, in order. -/
def outputs (es : List Event) : List Event := es.filter Event.isOutput

/-- The event is a call that changes the remote state: create, update or delete. -/
def Event.isMutation : Event → Bool
  | Event.CreateAPIProject _ _ _ => true
  | Event.DeleteAPIProject _ _ => true
  | Event.UpdateAPIProject _ _ _ _ => true
  | _ => false

/-- The event is a write of `fmt.Println` to standard output. -/
def Event.isStdout : Event → Bool
  | Event.stdout _ => true
  | _ => false

/-- The event is a call of `utils.PrintTable`. -/
def Event.isPrintTable : Event → Bool
  | Event.PrintTable _ _ => true
  | _ => false

/-- The field of a record that a column header names: `id` is `ID`, `name` is
`Name`, `description` is `Description`, `setup_at` is `SetupAt`, `created_at` is
`CreatedAt`. -/
def ProjectInfo.column (p : ProjectInfo) (header : GoString) : Option GoString :=
  if header = str "id" then some p.ID
  else if header = str "name" then some p.Name
  else if header = str "description" then some p.Description
  else if header = str "setup_at" then some p.SetupAt
  else if header = str "created_at" then some p.CreatedAt
  else none

/-- Every string field of the record is valid UTF-8. -/
def ProjectInfo.ValidUTF8 (p : ProjectInfo) : Bool :=
  utf8.ValidString p.ID && utf8.ValidString p.Name && utf8.ValidString p.Description
    && utf8.ValidString p.SetupAt && utf8.ValidString p.CreatedAt

/-- The record with every string field coerced to valid UTF-8. -/
def ProjectInfo.coerce (p : ProjectInfo) : ProjectInfo :=
  ⟨utf8.coerce p.ID, utf8.coerce p.Name, utf8.coerce p.Description, utf8.coerce p.SetupAt,
   utf8.coerce p.CreatedAt⟩

/-- The slice with every record coerced to valid UTF-8; a nil slice stays nil. -/
def coerceProjects : Slice ProjectInfo → Slice ProjectInfo
  | Slice.nil => Slice.nil
  | Slice.mk elems => Slice.mk (elems.map ProjectInfo.coerce)

/-- The bytes `fmt.Println` wrote to standard output among some events. -/
def stdoutBytes : List Event → GoString
  | [] => []
  | Event.stdout bytes :: es => bytes ++ stdoutBytes es
  | _ :: es => stdoutBytes es

/-! ## `cmd/projects.go` -/

section Commands

variable {σ : Type}

/-- Source `printProjectsInfo`, lines 167-170: `var rows [][]string` and the loop
that appends one row per element of `info`. -/
def tableRows (info : Slice ProjectInfo) : Slice (List GoString) :=
  info.toList.foldl
    (fun rows projectInfo =>
      rows.append [projectInfo.ID, projectInfo.Name, projectInfo.Description,
                   projectInfo.SetupAt, projectInfo.CreatedAt])
    Slice.nil

/-- Source `printProjectsInfo`, lines 156-172. -/
def printProjectsInfo (info : Slice ProjectInfo) (jsonFlag : Bool) (w : World σ) : World σ :=
  if jsonFlag then
    match json.MarshalProjects info with
    | Except.error err => utils.Err err w
    | Except.ok resp => fmt.Println resp w
  else
    let rows := tableRows info
    utils.PrintTable [str "id", str "name", str "description", str "setup_at", str "created_at"]
      rows w

/-- Source `printProjectInfo`, lines 174-187. -/
def printProjectInfo (info : ProjectInfo) (jsonFlag : Bool) (w : World σ) : World σ :=
  if jsonFlag then
    match json.MarshalProjectInfo info with
    | Except.error err => utils.Err err w
    | Except.ok resp => fmt.Println resp w
  else
    let rows : Slice (List GoString) :=
      Slice.mk [[info.ID, info.Name, info.Description, info.SetupAt, info.CreatedAt]]
    utils.PrintTable [str "id", str "name", str "description", str "setup_at", str "created_at"]
      rows w

/-- Source `projectsCmd.Run` (list), lines 31-38. -/
def projectsCmd.Run (c : Client σ) (cmd : Command) (_args : List GoString) (w : World σ) :
    World σ :=
  let jsonFlag := utils.GetBoolFlag cmd "json"
  let localConfig := configuration.LocalConfig cmd
  let r := api.GetAPIProjects c cmd localConfig.Key.Value w
  printProjectsInfo r.1 jsonFlag r.2

/-- Source `projectsGetCmd.Run`, lines 44-56. -/
def projectsGetCmd.Run (c : Client σ) (cmd : Command) (args : List GoString) (w : World σ) :
    World σ :=
  let jsonFlag := utils.GetBoolFlag cmd "json"
  let localConfig := configuration.LocalConfig cmd
  let project := localConfig.Project.Value
  let project := if h : 0 < args.length then args[0] else project
  let r := api.GetAPIProject c cmd localConfig.Key.Value project w
  printProjectInfo r.1 jsonFlag r.2

/-- Source `projectsCreateCmd.Run`, lines 62-78. -/
def projectsCreateCmd.Run (c : Client σ) (cmd : Command) (args : List GoString) (w : World σ) :
    World σ :=
  let jsonFlag := utils.GetBoolFlag cmd "json"
  let silent := utils.GetBoolFlag cmd "silent"
  let description := cmd.FlagValueString "description"
  let name := cmd.FlagValueString "name"
  let name := if h : 0 < args.length then args[0] else name
  let localConfig := configuration.LocalConfig cmd
  let r := api.CreateAPIProject c cmd localConfig.Key.Value name description w
  if !silent then printProjectInfo r.1 jsonFlag r.2 else r.2

/-- Source `projectsDeleteCmd.Run`, lines 84-102. -/
def projectsDeleteCmd.Run (c : Client σ) (cmd : Command) (args : List GoString) (w : World σ) :
    World σ :=
  let jsonFlag := utils.GetBoolFlag cmd "json"
  let silent := utils.GetBoolFlag cmd "silent"
  let localConfig := configuration.LocalConfig cmd
  let project := localConfig.Project.Value
  let project := if h : 0 < args.length then args[0] else project
  let w1 := api.DeleteAPIProject c cmd localConfig.Key.Value project w
  if !silent then
    let r := api.GetAPIProjects c cmd localConfig.Key.Value w1
    printProjectsInfo r.1 jsonFlag r.2
  else w1

/-- Source `projectsUpdateCmd.Run`, lines 108-126. -/
def projectsUpdateCmd.Run (c : Client σ) (cmd : Command) (args : List GoString) (w : World σ) :
    World σ :=
  let jsonFlag := utils.GetBoolFlag cmd "json"
  let silent := utils.GetBoolFlag cmd "silent"
  let localConfig := configuration.LocalConfig cmd
  let project := localConfig.Project.Value
  let project := if h : 0 < args.length then args[0] else project
  let name := cmd.FlagValueString "name"
  let description := cmd.FlagValueString "description"
  let r := api.UpdateAPIProject c cmd localConfig.Key.Value project name description w
  if !silent then printProjectInfo r.1 jsonFlag r.2 else r.2

/-- Source `init`, lines 148-149: the flags of the update command that
`MarkFlagRequired` annotates. -/
def projectsUpdateCmd.requiredFlags : List String := ["name", "description"]

/-- Modelled from the spec: the dispatch of the `cobra` library is outside the source
file. Before it calls `Run` it checks the flags marked required: when one of them was
not set on the command line it returns an error naming them and `Run` is not called. -/
def cobra.execute (required : List String)
    (run : Command → List GoString → World σ → World σ)
    (cmd : Command) (args : List GoString) (w : World σ) : Option (List String) × World σ :=
  let missing := required.filter (fun f => !cmd.Changed f)
  if missing.isEmpty then (none, run cmd args w) else (some missing, w)

/-- The update command as the dispatcher runs it. -/
def projectsUpdateCmd.execute (c : Client σ) (cmd : Command) (args : List GoString)
    (w : World σ) : Option (List String) × World σ :=
  cobra.execute projectsUpdateCmd.requiredFlags (projectsUpdateCmd.Run c) cmd args w

end Commands

/-! ## Worked example data -/

/-- An in-memory service for the worked examples: its state is the list of projects. -/
def memClient : Client (List ProjectInfo) where
  GetAPIProjects := fun s _ _ => (s, Slice.mk s)
  GetAPIProject := fun s _ _ project =>
    (s, (s.find? (fun p => p.ID = project)).getD ⟨project, [], [], [], []⟩)
  CreateAPIProject := fun s _ _ name description =>
    (s ++ [⟨name, name, description, [], []⟩], ⟨name, name, description, [], []⟩)
  DeleteAPIProject := fun s _ _ project => s.filter (fun p => p.ID ≠ project)
  UpdateAPIProject := fun s _ _ project name description =>
    (s.map (fun p => if p.ID = project then ⟨project, name, description, p.SetupAt, p.CreatedAt⟩
                     else p),
     ⟨project, name, description, [], []⟩)

/-- An invocation with no boolean flag set, the string flags `--name` and
`--description` as given, `changed` the flags set on the command line, and the
default project `proj-y`. -/
def exampleCmd (name description : GoString) (changed : List String) : Command where
  boolFlags := fun _ => false
  stringFlags := fun f => if f = "name" then name else if f = "description" then description else []
  Changed := fun f => decide (f ∈ changed)
  config := ⟨⟨str "key"⟩, ⟨str "proj-y"⟩⟩

/-- A service holding two projects, and no event yet. -/
def exampleWorld : World (List ProjectInfo) :=
  { server := [⟨str "proj-x", str "X", [], [], []⟩, ⟨str "proj-y", str "Y", [], [], []⟩],
    trace := [] }

/-- A record with a name outside ASCII (`é`), the line separator U+2028 as its
description, and characters the JSON encoder escapes. -/
def unicodeProject : ProjectInfo :=
  ⟨str "proj-x", [0xC3, 0xA9], [0xE2, 0x80, 0xA8], str "<&>", []⟩

/-- Two records with strings outside ASCII and escaped characters. -/
def unicodeProjects : Slice ProjectInfo :=
  Slice.mk [unicodeProject, ⟨str "proj-y", [0x22, 0x5C, 0x0A], [], [], []⟩]

/-! ## Traces of the building blocks -/

section Lemmas

variable {σ : Type}

theorem newEvents_append (w w1 : World σ) (es : List Event) (h : w1.trace = w.trace ++ es) :
    newEvents w w1 = es := by
  simp [newEvents, h]

/-- The loop of `printProjectsInfo` appends one row per record, in order. -/
theorem rows_foldl (l : List ProjectInfo) (acc : Slice (List GoString)) :
    (l.foldl (fun rows projectInfo =>
        rows.append [projectInfo.ID, projectInfo.Name, projectInfo.Description,
                     projectInfo.SetupAt, projectInfo.CreatedAt]) acc).toList
      = acc.toList ++ l.map (fun p => [p.ID, p.Name, p.Description, p.SetupAt, p.CreatedAt]) := by
  induction l generalizing acc with
  | nil => simp
  | cons p ps ih =>
    rw [List.foldl_cons, ih]
    cases acc <;> simp [Slice.append, Slice.toList]

theorem tableRows_toList (info : Slice ProjectInfo) :
    (tableRows info).toList
      = info.toList.map (fun p => [p.ID, p.Name, p.Description, p.SetupAt, p.CreatedAt]) := by
  rw [tableRows, rows_foldl]
  simp [Slice.toList]

theorem printProjectsInfo_table (info : Slice ProjectInfo) (w : World σ) :
    printProjectsInfo info false w
      = { server := w.server,
          trace := w.trace ++ [Event.PrintTable
            [str "id", str "name", str "description", str "setup_at", str "created_at"]
            (tableRows info)] } := by
  simp [printProjectsInfo, utils.PrintTable, World.emit, tableRows]

theorem printProjectsInfo_json (info : Slice ProjectInfo) (w : World σ) :
    printProjectsInfo info true w
      = { server := w.server,
          trace := w.trace ++ [Event.stdout (json.encodeProjects info ++ [0x0A])] } := by
  simp [printProjectsInfo, json.MarshalProjects, fmt.Println, World.emit]

theorem printProjectInfo_table (info : ProjectInfo) (w : World σ) :
    printProjectInfo info false w
      = { server := w.server,
          trace := w.trace ++ [Event.PrintTable
            [str "id", str "name", str "description", str "setup_at", str "created_at"]
            (Slice.mk [[info.ID, info.Name, info.Description, info.SetupAt, info.CreatedAt]])] } := by
  simp [printProjectInfo, utils.PrintTable, World.emit]

theorem printProjectInfo_json (info : ProjectInfo) (w : World σ) :
    printProjectInfo info true w
      = { server := w.server,
          trace := w.trace ++ [Event.stdout (json.encodeProjectInfo info ++ [0x0A])] } := by
  simp [printProjectInfo, json.MarshalProjectInfo, fmt.Println, World.emit]

/-- Either printer adds exactly one event, and it is output. -/
theorem printProjectsInfo_trace (info : Slice ProjectInfo) (jsonFlag : Bool) (w : World σ) :
    ∃ e, e.isOutput = true ∧ e.isClientCall = false ∧ e.isMutation = false
      ∧ (printProjectsInfo info jsonFlag w).trace = w.trace ++ [e] := by
  cases jsonFlag
  · exact ⟨Event.PrintTable _ _, rfl, rfl, rfl, by rw [printProjectsInfo_table]⟩
  · exact ⟨Event.stdout _, rfl, rfl, rfl, by rw [printProjectsInfo_json]⟩

theorem printProjectInfo_trace (info : ProjectInfo) (jsonFlag : Bool) (w : World σ) :
    ∃ e, e.isOutput = true ∧ e.isClientCall = false ∧ e.isMutation = false
      ∧ (printProjectInfo info jsonFlag w).trace = w.trace ++ [e] := by
  cases jsonFlag
  · exact ⟨Event.PrintTable _ _, rfl, rfl, rfl, by rw [printProjectInfo_table]⟩
  · exact ⟨Event.stdout _, rfl, rfl, rfl, by rw [printProjectInfo_json]⟩

/-- The positional argument wins over the default: `args[0]` under the length guard. -/
theorem resolve_eq (args : List GoString) (d : GoString) :
    (if h : 0 < args.length then args[0] else d)
      = (match args with
         | [] => d
         | a :: _ => a) := by
  cases args <;> simp


/-- The identifier the get, delete and update commands resolve. -/
theorem project_eq (cmd : Command) (args : List GoString) :
    (if h : 0 < args.length then args[0] else (configuration.LocalConfig cmd).Project.Value)
      = (match args with
         | [] => (configuration.LocalConfig cmd).Project.Value
         | a :: _ => a) :=
  resolve_eq args _

theorem get_run (c : Client σ) (cmd : Command) (args : List GoString) (w : World σ)
    (key id : GoString) (hkey : key = (configuration.LocalConfig cmd).Key.Value)
    (hid : id = (if h : 0 < args.length then args[0]
                 else (configuration.LocalConfig cmd).Project.Value)) :
    projectsGetCmd.Run c cmd args w
      = printProjectInfo (c.GetAPIProject w.server cmd key id).2 (utils.GetBoolFlag cmd "json")
          { server := (c.GetAPIProject w.server cmd key id).1,
            trace := w.trace ++ [Event.GetAPIProject key id] } := by
  subst hkey hid
  rfl

theorem create_run (c : Client σ) (cmd : Command) (args : List GoString) (w : World σ)
    (key name description : GoString) (hkey : key = (configuration.LocalConfig cmd).Key.Value)
    (hname : name = (if h : 0 < args.length then args[0] else cmd.FlagValueString "name"))
    (hdesc : description = cmd.FlagValueString "description") :
    projectsCreateCmd.Run c cmd args w
      = if utils.GetBoolFlag cmd "silent" = true then
          { server := (c.CreateAPIProject w.server cmd key name description).1,
            trace := w.trace ++ [Event.CreateAPIProject key name description] }
        else
          printProjectInfo (c.CreateAPIProject w.server cmd key name description).2
            (utils.GetBoolFlag cmd "json")
            { server := (c.CreateAPIProject w.server cmd key name description).1,
              trace := w.trace ++ [Event.CreateAPIProject key name description] } := by
  subst hkey hname hdesc
  cases hs : utils.GetBoolFlag cmd "silent" <;>
    simp [projectsCreateCmd.Run, api.CreateAPIProject, hs]

theorem delete_run (c : Client σ) (cmd : Command) (args : List GoString) (w : World σ)
    (key id : GoString) (hkey : key = (configuration.LocalConfig cmd).Key.Value)
    (hid : id = (if h : 0 < args.length then args[0]
                 else (configuration.LocalConfig cmd).Project.Value)) :
    projectsDeleteCmd.Run c cmd args w
      = if utils.GetBoolFlag cmd "silent" = true then
          { server := c.DeleteAPIProject w.server cmd key id,
            trace := w.trace ++ [Event.DeleteAPIProject key id] }
        else
          printProjectsInfo
            (c.GetAPIProjects (c.DeleteAPIProject w.server cmd key id) cmd key).2
            (utils.GetBoolFlag cmd "json")
            { server := (c.GetAPIProjects (c.DeleteAPIProject w.server cmd key id) cmd key).1,
              trace := w.trace ++ [Event.DeleteAPIProject key id, Event.GetAPIProjects key] } := by
  subst hkey hid
  cases hs : utils.GetBoolFlag cmd "silent" <;>
    simp [projectsDeleteCmd.Run, api.DeleteAPIProject, api.GetAPIProjects, hs]

theorem update_run (c : Client σ) (cmd : Command) (args : List GoString) (w : World σ)
    (key id name description : GoString)
    (hkey : key = (configuration.LocalConfig cmd).Key.Value)
    (hid : id = (if h : 0 < args.length then args[0]
                 else (configuration.LocalConfig cmd).Project.Value))
    (hname : name = cmd.FlagValueString "name")
    (hdesc : description = cmd.FlagValueString "description") :
    projectsUpdateCmd.Run c cmd args w
      = if utils.GetBoolFlag cmd "silent" = true then
          { server := (c.UpdateAPIProject w.server cmd key id name description).1,
            trace := w.trace ++ [Event.UpdateAPIProject key id name description] }
        else
          printProjectInfo (c.UpdateAPIProject w.server cmd key id name description).2
            (utils.GetBoolFlag cmd "json")
            { server := (c.UpdateAPIProject w.server cmd key id name description).1,
              trace := w.trace ++ [Event.UpdateAPIProject key id name description] } := by
  subst hkey hid hname hdesc
  cases hs : utils.GetBoolFlag cmd "silent" <;>
    simp [projectsUpdateCmd.Run, api.UpdateAPIProject, hs]

/-- The events of a call followed by a printer: the call, then one output event. -/
theorem newEvents_call_print (w w1 : World σ) (s : σ) (call : Event)
    (p : World σ → World σ)
    (hp : ∃ e, e.isOutput = true ∧ e.isClientCall = false ∧ e.isMutation = false
      ∧ (p { server := s, trace := w.trace ++ [call] }).trace = (w.trace ++ [call]) ++ [e])
    (h : w1 = p { server := s, trace := w.trace ++ [call] }) :
    ∃ e, e.isOutput = true ∧ e.isClientCall = false ∧ e.isMutation = false
      ∧ newEvents w w1 = [call, e] := by
  obtain ⟨e, h1, h2, h3, ht⟩ := hp
  refine ⟨e, h1, h2, h3, ?_⟩
  apply newEvents_append
  rw [h, ht, List.append_assoc]
  rfl

/-- With both required flags set the dispatcher calls `Run`. -/
theorem update_execute_runs (c : Client σ) (cmd : Command) (args : List GoString)
    (w : World σ) (hn : cmd.Changed "name" = true) (hd : cmd.Changed "description" = true) :
    projectsUpdateCmd.execute c cmd args w = (none, projectsUpdateCmd.Run c cmd args w) := by
  simp [projectsUpdateCmd.execute, cobra.execute, projectsUpdateCmd.requiredFlags,
    List.filter_cons, hn, hd]

end Lemmas

/-! ## UTF-8 decoding and encoding -/

section Utf8Lemmas

theorem byte_val (n : Nat) : (byte n).val = n % 256 := rfl

/-- The shapes of a result of `DecodeRuneInString` at a non-ASCII lead byte. -/
theorem decode_cases (b : Fin 256) (rest : GoString) (hb : ¬ b.val < 0x80) :
    utf8.DecodeRuneInString (b :: rest) = (utf8.RuneError, 1)
    ∨ (∃ s1 t, rest = s1 :: t ∧ 0xC2 ≤ b.val ∧ b.val < 0xE0
        ∧ 0x80 ≤ s1.val ∧ s1.val ≤ 0xBF
        ∧ utf8.DecodeRuneInString (b :: rest) = ((b.val % 32) * 64 + s1.val % 64, 2))
    ∨ (∃ s1 s2 t, rest = s1 :: s2 :: t ∧ 0xE0 ≤ b.val ∧ b.val < 0xF0
        ∧ 0x80 ≤ s1.val ∧ s1.val ≤ 0xBF ∧ (b.val = 0xE0 → 0xA0 ≤ s1.val)
        ∧ (b.val = 0xED → s1.val ≤ 0x9F) ∧ 0x80 ≤ s2.val ∧ s2.val ≤ 0xBF
        ∧ utf8.DecodeRuneInString (b :: rest)
            = ((b.val % 16) * 4096 + (s1.val % 64) * 64 + s2.val % 64, 3))
    ∨ (∃ s1 s2 s3 t, rest = s1 :: s2 :: s3 :: t ∧ 0xF0 ≤ b.val ∧ b.val < 0xF5
        ∧ 0x80 ≤ s1.val ∧ s1.val ≤ 0xBF ∧ (b.val = 0xF0 → 0x90 ≤ s1.val)
        ∧ (b.val = 0xF4 → s1.val ≤ 0x8F) ∧ 0x80 ≤ s2.val ∧ s2.val ≤ 0xBF
        ∧ 0x80 ≤ s3.val ∧ s3.val ≤ 0xBF
        ∧ utf8.DecodeRuneInString (b :: rest)
            = ((b.val % 8) * 262144 + (s1.val % 64) * 4096 + (s2.val % 64) * 64
                + s3.val % 64, 4)) := by
  by_cases c1 : b.val < 0xC2
  · left
    simp [utf8.DecodeRuneInString, hb, c1]
  by_cases c2 : b.val < 0xE0
  · cases rest with
    | nil => left; simp [utf8.DecodeRuneInString, hb, c1, c2]
    | cons s1 t =>
      by_cases r : s1.val < 0x80 ∨ 0xBF < s1.val
      · left; simp [utf8.DecodeRuneInString, hb, c1, c2, r]
      · right; left
        refine ⟨s1, t, rfl, by omega, c2, by omega, by omega, ?_⟩
        simp [utf8.DecodeRuneInString, hb, c1, c2, r]
  by_cases c3 : b.val < 0xF0
  · match rest with
    | [] => left; simp [utf8.DecodeRuneInString, hb, c1, c2, c3]
    | [_] => left; simp [utf8.DecodeRuneInString, hb, c1, c2, c3]
    | s1 :: s2 :: t =>
      by_cases r : s1.val < (if b.val = 0xE0 then 0xA0 else 0x80)
          ∨ (if b.val = 0xED then 0x9F else 0xBF) < s1.val
      · left; simp [utf8.DecodeRuneInString, hb, c1, c2, c3, r]
      · by_cases r2 : s2.val < 0x80 ∨ 0xBF < s2.val
        · left; simp [utf8.DecodeRuneInString, hb, c1, c2, c3, r, r2]
        · right; right; left
          refine ⟨s1, s2, t, rfl, by omega, c3, ?_, ?_, ?_, ?_, by omega, by omega, ?_⟩
          · split_ifs at r <;> omega
          · split_ifs at r <;> omega
          · intro h; simp only [h, if_true] at r; split_ifs at r <;> omega
          · intro h; simp only [h, if_true] at r; split_ifs at r <;> omega
          · simp [utf8.DecodeRuneInString, hb, c1, c2, c3, r, r2]
  by_cases c4 : b.val < 0xF5
  · match rest with
    | [] => left; simp [utf8.DecodeRuneInString, hb, c1, c2, c3, c4]
    | [_] => left; simp [utf8.DecodeRuneInString, hb, c1, c2, c3, c4]
    | [_, _] => left; simp [utf8.DecodeRuneInString, hb, c1, c2, c3, c4]
    | s1 :: s2 :: s3 :: t =>
      by_cases r : s1.val < (if b.val = 0xF0 then 0x90 else 0x80)
          ∨ (if b.val = 0xF4 then 0x8F else 0xBF) < s1.val
      · left; simp [utf8.DecodeRuneInString, hb, c1, c2, c3, c4, r]
      · by_cases r2 : s2.val < 0x80 ∨ 0xBF < s2.val
        · left; simp [utf8.DecodeRuneInString, hb, c1, c2, c3, c4, r, r2]
        · by_cases r3 : s3.val < 0x80 ∨ 0xBF < s3.val
          · left; simp [utf8.DecodeRuneInString, hb, c1, c2, c3, c4, r, r2, r3]
          · right; right; right
            refine ⟨s1, s2, s3, t, rfl, by omega, c4, ?_, ?_, ?_, ?_, by omega, by omega,
              by omega, by omega, ?_⟩
            · split_ifs at r <;> omega
            · split_ifs at r <;> omega
            · intro h; simp only [h, if_true] at r; split_ifs at r <;> omega
            · intro h; simp only [h, if_true] at r; split_ifs at r <;> omega
            · simp [utf8.DecodeRuneInString, hb, c1, c2, c3, c4, r, r2, r3]
  · left
    simp [utf8.DecodeRuneInString, hb, c1, c2, c3, c4]


theorem fin_eq_byte (b : Fin 256) (n : Nat) (h : n % 256 = b.val) : byte n = b :=
  Fin.ext h

/-- Decoding an ASCII lead byte. -/
theorem decode_ascii (b : Fin 256) (rest : GoString) (hb : b.val < 0x80) :
    utf8.DecodeRuneInString (b :: rest) = (b.val, 1) := by
  simp [utf8.DecodeRuneInString, hb]

/-- A rune that `DecodeRuneInString` accepts encodes back to the bytes it was read from. -/
theorem encode_decode (b : Fin 256) (rest : GoString) (hb : ¬ b.val < 0x80)
    (hv : utf8.DecodeRuneInString (b :: rest) ≠ (utf8.RuneError, 1)) :
    utf8.EncodeRune (utf8.DecodeRuneInString (b :: rest)).1
      = (b :: rest).take (utf8.DecodeRuneInString (b :: rest)).2 := by
  rcases decode_cases b rest hb with h | ⟨s1, t, rfl, h1, h2, h3, h4, hd⟩
    | ⟨s1, s2, t, rfl, h1, h2, h3, h4, h5, h6, h7, h8, hd⟩
    | ⟨s1, s2, s3, t, rfl, h1, h2, h3, h4, h5, h6, h7, h8, h9, h10, hd⟩
  · exact absurd h hv
  · rw [hd]
    simp only [utf8.EncodeRune, List.take_succ_cons, List.take_zero]
    rw [if_neg (by omega), if_pos (by omega)]
    congr 1
    · exact fin_eq_byte _ _ (by omega)
    · congr 1
      exact fin_eq_byte _ _ (by omega)
  · rw [hd]
    simp only [utf8.EncodeRune, List.take_succ_cons, List.take_zero]
    rw [if_neg (by omega), if_neg (by omega), if_neg (by omega), if_pos (by omega)]
    congr 1
    · exact fin_eq_byte _ _ (by omega)
    · congr 1
      · exact fin_eq_byte _ _ (by omega)
      · congr 1
        exact fin_eq_byte _ _ (by omega)
  · rw [hd]
    simp only [utf8.EncodeRune, List.take_succ_cons, List.take_zero]
    rw [if_neg (by omega), if_neg (by omega), if_neg (by omega), if_neg (by omega)]
    congr 1
    · exact fin_eq_byte _ _ (by omega)
    · congr 1
      · exact fin_eq_byte _ _ (by omega)
      · congr 1
        · exact fin_eq_byte _ _ (by omega)
        · congr 1
          exact fin_eq_byte _ _ (by omega)

/-- The width of the first rune of a non-empty string is between 1 and 4. -/
theorem decode_width (b : Fin 256) (rest : GoString) :
    1 ≤ (utf8.DecodeRuneInString (b :: rest)).2
      ∧ (utf8.DecodeRuneInString (b :: rest)).2 ≤ (b :: rest).length := by
  by_cases hb : b.val < 0x80
  · rw [decode_ascii b rest hb]
    simp
  · rcases decode_cases b rest hb with h | ⟨s1, t, rfl, h1, h2, h3, h4, hd⟩
      | ⟨s1, s2, t, rfl, h1, h2, h3, h4, h5, h6, h7, h8, hd⟩
      | ⟨s1, s2, s3, t, rfl, h1, h2, h3, h4, h5, h6, h7, h8, h9, h10, hd⟩
    · rw [h]; simp
    · rw [hd]; simp
    · rw [hd]; simp
    · rw [hd]; simp

/-- `DecodeRuneInString` reads only the bytes of the rune it returns. -/
theorem decode_take (b : Fin 256) (rest tail : GoString) (hb : ¬ b.val < 0x80)
    (hv : utf8.DecodeRuneInString (b :: rest) ≠ (utf8.RuneError, 1)) :
    utf8.DecodeRuneInString
        ((b :: rest).take (utf8.DecodeRuneInString (b :: rest)).2 ++ tail)
      = utf8.DecodeRuneInString (b :: rest) := by
  rcases decode_cases b rest hb with h | ⟨s1, t, rfl, h1, h2, h3, h4, hd⟩
    | ⟨s1, s2, t, rfl, h1, h2, h3, h4, h5, h6, h7, h8, hd⟩
    | ⟨s1, s2, s3, t, rfl, h1, h2, h3, h4, h5, h6, h7, h8, h9, h10, hd⟩
  · exact absurd h hv
  · rw [hd]
    simp only [List.take_succ_cons, List.take_zero, List.cons_append, List.nil_append]
    have c1 : ¬ b.val < 0xC2 := by omega
    have r1 : ¬ (s1.val < 0x80 ∨ 0xBF < s1.val) := by omega
    simp [utf8.DecodeRuneInString, hb, c1, h2, r1]
  · rw [hd]
    simp only [List.take_succ_cons, List.take_zero, List.cons_append, List.nil_append]
    have c1 : ¬ b.val < 0xC2 := by omega
    have c2 : ¬ b.val < 0xE0 := by omega
    have r1 : ¬ (s1.val < (if b.val = 0xE0 then 0xA0 else 0x80)
        ∨ (if b.val = 0xED then 0x9F else 0xBF) < s1.val) := by
      split_ifs <;> omega
    have r2 : ¬ (s2.val < 0x80 ∨ 0xBF < s2.val) := by omega
    simp [utf8.DecodeRuneInString, hb, c1, c2, h2, r1, r2]
  · rw [hd]
    simp only [List.take_succ_cons, List.take_zero, List.cons_append, List.nil_append]
    have c1 : ¬ b.val < 0xC2 := by omega
    have c2 : ¬ b.val < 0xE0 := by omega
    have c3 : ¬ b.val < 0xF0 := by omega
    have r1 : ¬ (s1.val < (if b.val = 0xF0 then 0x90 else 0x80)
        ∨ (if b.val = 0xF4 then 0x8F else 0xBF) < s1.val) := by
      split_ifs <;> omega
    have r2 : ¬ (s2.val < 0x80 ∨ 0xBF < s2.val) := by omega
    have r3 : ¬ (s3.val < 0x80 ∨ 0xBF < s3.val) := by omega
    simp [utf8.DecodeRuneInString, hb, c1, c2, c3, h2, r1, r2, r3]

end Utf8Lemmas

/-! ## The bytes of an encoded document -/

section EncoderBytes

theorem hex_ge (n : Nat) (h : n < 16) : 0x20 ≤ (json.hex n).val := by
  unfold json.hex
  split <;> rw [byte_val] <;> omega

theorem escapeByte_ge (b : Fin 256) (hb : json.htmlSafeSet b = false) (h80 : b.val < 0x80) :
    ∀ x ∈ json.escapeByte b, 0x20 ≤ x.val := by
  have h1 := hex_ge (b.val / 16) (by omega)
  have h2 := hex_ge (b.val % 16) (by omega)
  intro x hx
  unfold json.escapeByte at hx
  split_ifs at hx with c1 c2 c3 c4
  · simp only [List.mem_singleton] at hx
    subst hx
    omega
  all_goals
    simp only [List.mem_cons, List.mem_singleton, List.not_mem_nil, or_false] at hx
    rcases hx with rfl | rfl | rfl | rfl | rfl <;> first | decide | assumption

/-- The bytes of the first rune at a non-ASCII lead byte are all at least 0x80. -/
theorem take_decode_ge (b : Fin 256) (rest : GoString) (hb : ¬ b.val < 0x80) :
    ∀ x ∈ (b :: rest).take (utf8.DecodeRuneInString (b :: rest)).2, 0x80 ≤ x.val := by
  intro x hx
  rcases decode_cases b rest hb with h | ⟨s1, t, rfl, h1, h2, h3, h4, hd⟩
    | ⟨s1, s2, t, rfl, h1, h2, h3, h4, h5, h6, h7, h8, hd⟩
    | ⟨s1, s2, s3, t, rfl, h1, h2, h3, h4, h5, h6, h7, h8, h9, h10, hd⟩
  · rw [h] at hx
    simp only [List.take_succ_cons, List.take_zero, List.mem_singleton] at hx
    subst hx
    omega
  · rw [hd] at hx
    simp only [List.take_succ_cons, List.take_zero, List.mem_cons, List.mem_singleton,
      List.not_mem_nil, or_false] at hx
    rcases hx with rfl | rfl <;> omega
  · rw [hd] at hx
    simp only [List.take_succ_cons, List.take_zero, List.mem_cons, List.mem_singleton,
      List.not_mem_nil, or_false] at hx
    rcases hx with rfl | rfl | rfl <;> omega
  · rw [hd] at hx
    simp only [List.take_succ_cons, List.take_zero, List.mem_cons, List.mem_singleton,
      List.not_mem_nil, or_false] at hx
    rcases hx with rfl | rfl | rfl | rfl <;> omega

theorem stringAux_ge (fuel : Nat) (s : GoString) :
    ∀ x ∈ json.stringAux fuel s, 0x20 ≤ x.val := by
  induction fuel generalizing s with
  | zero => cases s <;> simp [json.stringAux]
  | succ n ih =>
    cases s with
    | nil => simp [json.stringAux]
    | cons b rest =>
      intro x hx
      unfold json.stringAux at hx
      simp only [utf8.RuneSelf] at hx
      split_ifs at hx with c1 c2 c3 c4
      · rcases List.mem_cons.mp hx with rfl | hx
        · simp [json.htmlSafeSet] at c2; omega
        · exact ih _ x hx
      · rcases List.mem_cons.mp hx with rfl | hx
        · decide
        · rcases List.mem_append.mp hx with hx | hx
          · exact escapeByte_ge b (by simpa using c2) c1 x hx
          · exact ih _ x hx
      · rcases List.mem_append.mp hx with hx | hx
        · simp only [List.mem_cons, List.mem_singleton, List.not_mem_nil, or_false] at hx
          rcases hx with rfl | rfl | rfl | rfl | rfl | rfl <;> decide
        · exact ih _ x hx
      · rcases List.mem_append.mp hx with hx | hx
        · have := hex_ge ((utf8.DecodeRuneInString (b :: rest)).1 % 16) (by omega)
          simp only [List.mem_cons, List.mem_singleton, List.not_mem_nil, or_false] at hx
          rcases hx with rfl | rfl | rfl | rfl | rfl | rfl <;> first | decide | assumption
        · exact ih _ x hx
      · rcases List.mem_append.mp hx with hx | hx
        · have := take_decode_ge b rest c1 x hx
          omega
        · exact ih _ x hx

theorem encodeString_ge (s : GoString) : ∀ x ∈ json.encodeString s, 0x20 ≤ x.val := by
  intro x hx
  unfold json.encodeString at hx
  rcases List.mem_cons.mp hx with rfl | hx
  · decide
  · rcases List.mem_append.mp hx with hx | hx
    · exact stringAux_ge _ _ x hx
    · simp only [List.mem_singleton] at hx
      subst hx
      decide

theorem encodeMembers_ge (ns vs : List GoString) :
    ∀ x ∈ json.encodeMembers ns vs, 0x20 ≤ x.val := by
  induction ns generalizing vs with
  | nil => simp [json.encodeMembers]
  | cons n ns ih =>
    cases vs with
    | nil => simp [json.encodeMembers]
    | cons v vs =>
      intro x hx
      unfold json.encodeMembers at hx
      simp only [List.mem_append, List.mem_singleton] at hx
      rcases hx with ((hx | rfl) | hx) | hx
      · exact encodeString_ge _ x hx
      · decide
      · exact encodeString_ge _ x hx
      · cases ns with
        | nil => simp at hx
        | cons m ms =>
          simp only [List.mem_cons] at hx
          rcases hx with rfl | hx
          · decide
          · exact ih vs x hx

theorem encodeProjectInfo_ge (p : ProjectInfo) :
    ∀ x ∈ json.encodeProjectInfo p, 0x20 ≤ x.val := by
  intro x hx
  unfold json.encodeProjectInfo at hx
  rcases List.mem_cons.mp hx with rfl | hx
  · decide
  · rcases List.mem_append.mp hx with hx | hx
    · exact encodeMembers_ge _ _ x hx
    · simp only [List.mem_singleton] at hx
      subst hx
      decide

theorem encodeElems_ge (ps : List ProjectInfo) : ∀ x ∈ json.encodeElems ps, 0x20 ≤ x.val := by
  induction ps with
  | nil => simp [json.encodeElems]
  | cons p ps ih =>
    cases ps with
    | nil => simpa [json.encodeElems] using encodeProjectInfo_ge p
    | cons q qs =>
      intro x hx
      unfold json.encodeElems at hx
      rcases List.mem_append.mp hx with hx | hx
      · exact encodeProjectInfo_ge p x hx
      · rcases List.mem_cons.mp hx with rfl | hx
        · decide
        · exact ih x hx

theorem encodeProjects_ge (info : Slice ProjectInfo) :
    ∀ x ∈ json.encodeProjects info, 0x20 ≤ x.val := by
  cases info with
  | nil =>
    intro x hx
    have h : json.encodeProjects Slice.nil = [0x6E, 0x75, 0x6C, 0x6C] := rfl
    rw [h] at hx
    simp only [List.mem_cons, List.mem_singleton, List.not_mem_nil, or_false] at hx
    rcases hx with rfl | rfl | rfl | rfl <;> decide
  | mk elems =>
    intro x hx
    unfold json.encodeProjects at hx
    rcases List.mem_cons.mp hx with rfl | hx
    · decide
    · rcases List.mem_append.mp hx with hx | hx
      · exact encodeElems_ge _ x hx
      · simp only [List.mem_singleton] at hx
        subst hx
        decide

/-- A document of the encoder contains no newline. -/
theorem newline_not_mem (doc : GoString) (h : ∀ x ∈ doc, 0x20 ≤ x.val) :
    (0x0A : Fin 256) ∉ doc := fun hm => absurd (h _ hm) (by decide)

end EncoderBytes

/-! ## Reading back an encoded string -/

section StringRoundTrip

theorem hexValue_hex (n : Nat) (h : n < 16) : json.hexValue (json.hex n) = some n := by
  interval_cases n <;> rfl

theorem stringAux_nil (f : Nat) : json.stringAux f [] = [] := by
  cases f <;> rfl

/-- Reading back a safe ASCII byte. -/
theorem unquote_safe (g : Nat) (b : Fin 256) (tail acc : GoString)
    (hs : json.htmlSafeSet b = true) :
    json.unquoteAux (g + 1) (b :: tail) acc = json.unquoteAux g tail (acc ++ [b]) := by
  simp only [json.htmlSafeSet, decide_eq_true_eq] at hs
  have h1 : b ≠ 0x22 := fun h => by rw [h] at hs; omega
  have h2 : b ≠ 0x5C := fun h => by rw [h] at hs; omega
  have h3 : ¬ b.val < 0x20 := by omega
  have h4 : b.val < utf8.RuneSelf := by unfold utf8.RuneSelf; omega
  simp [json.unquoteAux, h1, h2, h3, h4]

/-- Reading back the escape of an ASCII byte that is not safe. -/
theorem unquote_escape (g : Nat) (b : Fin 256) (tail acc : GoString)
    (hb : b.val < 0x80) (hs : json.htmlSafeSet b = false) :
    json.unquoteAux (g + 1) (0x5C :: (json.escapeByte b ++ tail)) acc
      = json.unquoteAux g tail (acc ++ [b]) := by
  have e1 : json.escapeByte 0x5C = [0x5C] := rfl
  have e2 : json.escapeByte 0x22 = [0x22] := rfl
  have e3 : json.escapeByte 0x0A = [0x6E] := rfl
  have e4 : json.escapeByte 0x0D = [0x72] := rfl
  have e5 : json.escapeByte 0x09 = [0x74] := rfl
  by_cases c1 : b.val = 0x5C ∨ b.val = 0x22
  · have hb2 : b = 0x5C ∨ b = 0x22 := by
      rcases c1 with h | h
      · exact Or.inl (Fin.ext h)
      · exact Or.inr (Fin.ext h)
    rcases hb2 with rfl | rfl
    · rw [e1]; simp [json.unquoteAux, json.unescape]
    · rw [e2]; simp [json.unquoteAux, json.unescape]
  by_cases c2 : b.val = 0x0A
  · have : b = 0x0A := Fin.ext c2
    subst this
    rw [e3]; simp [json.unquoteAux, json.unescape]
  by_cases c3 : b.val = 0x0D
  · have : b = 0x0D := Fin.ext c3
    subst this
    rw [e4]; simp [json.unquoteAux, json.unescape]
  by_cases c4 : b.val = 0x09
  · have : b = 0x09 := Fin.ext c4
    subst this
    rw [e5]; simp [json.unquoteAux, json.unescape]
  have e : json.escapeByte b = [0x75, 0x30, 0x30, json.hex (b.val / 16), json.hex (b.val % 16)] := by
    simp [json.escapeByte, c1, c2, c3, c4]
  have x1 := hexValue_hex (b.val / 16) (by omega)
  have x2 := hexValue_hex (b.val % 16) (by omega)
  have x0 : json.hexValue (0x30 : Fin 256) = some 0 := rfl
  have hh : json.hex4 (0x30 :: 0x30 :: json.hex (b.val / 16) :: json.hex (b.val % 16) :: tail)
      = some (b.val, tail) := by
    simp only [json.hex4, x0, x1, x2]
    congr 2
    omega
  have hsur : utf16.IsSurrogate b.val = false := by
    simp [utf16.IsSurrogate]; omega
  have henc : utf8.EncodeRune b.val = [b] := by
    simp only [utf8.EncodeRune]
    rw [if_pos (by omega)]
    congr 1
    exact Fin.ext (by rw [byte_val]; omega)
  rw [e]
  simp [json.unquoteAux, hh, hsur, henc]

/-- Reading back a multi-byte rune that the encoder copied. -/
theorem unquote_rune (g : Nat) (b : Fin 256) (t tail acc : GoString) (hb : ¬ b.val < 0x80)
    (hv : utf8.DecodeRuneInString (b :: t) ≠ (utf8.RuneError, 1)) :
    json.unquoteAux (g + 1)
        ((b :: t).take (utf8.DecodeRuneInString (b :: t)).2 ++ tail) acc
      = json.unquoteAux g tail
          (acc ++ (b :: t).take (utf8.DecodeRuneInString (b :: t)).2) := by
  have hw := decode_width b t
  have hdt := decode_take b t tail hb hv
  have hed := encode_decode b t hb hv
  obtain ⟨k, hk⟩ : ∃ k, (utf8.DecodeRuneInString (b :: t)).2 = k + 1 :=
    ⟨(utf8.DecodeRuneInString (b :: t)).2 - 1, by omega⟩
  have hlen : ((b :: t).take (utf8.DecodeRuneInString (b :: t)).2).length
      = (utf8.DecodeRuneInString (b :: t)).2 := by
    rw [List.length_take]; omega
  have hdrop : ((b :: t).take (utf8.DecodeRuneInString (b :: t)).2 ++ tail).drop
      (utf8.DecodeRuneInString (b :: t)).2 = tail := by
    rw [List.drop_append_eq_append_drop, hlen, Nat.sub_self, List.drop_zero,
      List.drop_eq_nil_of_le (by rw [hlen]), List.nil_append]
  have h1 : b ≠ 0x22 := fun h => hb (by rw [h]; decide)
  have h2 : b ≠ 0x5C := fun h => hb (by rw [h]; decide)
  have h3 : ¬ b.val < 0x20 := by omega
  have h4 : ¬ b.val < utf8.RuneSelf := by unfold utf8.RuneSelf; omega
  have hcons : (b :: t).take (utf8.DecodeRuneInString (b :: t)).2 ++ tail
      = b :: (t.take k ++ tail) := by
    rw [hk]; rfl
  rw [hcons] at hdt hdrop
  rw [hcons]
  simp only [json.unquoteAux, h1, h2, h3, h4, if_false]
  rw [hdt, hdrop, hed]

/-- Reading back the escape of U+2028 or U+2029. -/
theorem unquote_separator (g : Nat) (b : Fin 256) (t tail acc : GoString)
    (hb : ¬ b.val < 0x80)
    (hr : (utf8.DecodeRuneInString (b :: t)).1 = 0x2028
      ∨ (utf8.DecodeRuneInString (b :: t)).1 = 0x2029) :
    json.unquoteAux (g + 1)
        ([0x5C, 0x75, 0x32, 0x30, 0x32,
            json.hex ((utf8.DecodeRuneInString (b :: t)).1 % 16)] ++ tail) acc
      = json.unquoteAux g tail
          (acc ++ (b :: t).take (utf8.DecodeRuneInString (b :: t)).2) := by
  have hv : utf8.DecodeRuneInString (b :: t) ≠ (utf8.RuneError, 1) := by
    intro h
    rw [h] at hr
    simp [utf8.RuneError] at hr
  have hed := encode_decode b t hb hv
  rw [← hed]
  have x1 : json.hexValue (0x32 : Fin 256) = some 2 := rfl
  have x0 : json.hexValue (0x30 : Fin 256) = some 0 := rfl
  rcases hr with h | h
  · rw [h]
    have x8 : json.hexValue (json.hex (0x2028 % 16)) = some 8 := rfl
    have hs : utf16.IsSurrogate 0x2028 = false := rfl
    simp [json.unquoteAux, json.hex4, x0, x1, x8, hs]
  · rw [h]
    have x9 : json.hexValue (json.hex (0x2029 % 16)) = some 9 := rfl
    have hs : utf16.IsSurrogate 0x2029 = false := rfl
    simp [json.unquoteAux, json.hex4, x0, x1, x9, hs]

/-- Reading back the escape the encoder writes for an invalid byte. -/
theorem unquote_replacement (g : Nat) (tail acc : GoString) :
    json.unquoteAux (g + 1) ([0x5C, 0x75, 0x66, 0x66, 0x66, 0x64] ++ tail) acc
      = json.unquoteAux g tail (acc ++ [0xEF, 0xBF, 0xBD]) := by
  have xf : json.hexValue (0x66 : Fin 256) = some 15 := rfl
  have xd : json.hexValue (0x64 : Fin 256) = some 13 := rfl
  have hs : utf16.IsSurrogate 0xFFFD = false := rfl
  have he : utf8.EncodeRune 0xFFFD = [0xEF, 0xBF, 0xBD] := rfl
  simp [json.unquoteAux, json.hex4, xf, xd, hs, he]

/-- Reading back the body of an encoded string: the decoder returns the string
coerced to valid UTF-8 and stops after the closing quote. -/
theorem unquote_stringAux (n : Nat) :
    ∀ (s : GoString), s.length ≤ n → ∀ (f c g : Nat) (acc rest : GoString),
      s.length ≤ f → s.length ≤ c → (json.stringAux f s).length < g →
      json.unquoteAux g (json.stringAux f s ++ 0x22 :: rest) acc
        = some (acc ++ utf8.coerceAux c s, rest) := by
  induction n with
  | zero =>
    intro s hs f c g acc rest _ _ hg
    have : s = [] := List.length_eq_zero.mp (by omega)
    subst this
    rw [stringAux_nil] at hg ⊢
    cases g with
    | zero => simp at hg
    | succ g => cases c <;> simp [json.unquoteAux, utf8.coerceAux]
  | succ n ih =>
    intro s hs f c g acc rest hf hc hg
    cases s with
    | nil =>
      rw [stringAux_nil] at hg ⊢
      cases g with
      | zero => simp at hg
      | succ g => cases c <;> simp [json.unquoteAux, utf8.coerceAux]
    | cons b t =>
      obtain ⟨f, rfl⟩ : ∃ f', f = f' + 1 := ⟨f - 1, by simp at hf; omega⟩
      obtain ⟨c, rfl⟩ : ∃ c', c = c' + 1 := ⟨c - 1, by simp at hc; omega⟩
      obtain ⟨g, rfl⟩ : ∃ g', g = g' + 1 := ⟨g - 1, by omega⟩
      have hw := decode_width b t
      simp only [List.length_cons] at hs hf hc hw
      have hdl : ((b :: t).drop (utf8.DecodeRuneInString (b :: t)).2).length ≤ n := by
        rw [List.length_drop]; simp only [List.length_cons]; omega
      have hdf : ((b :: t).drop (utf8.DecodeRuneInString (b :: t)).2).length ≤ f := by
        rw [List.length_drop]; simp only [List.length_cons]; omega
      have hdc : ((b :: t).drop (utf8.DecodeRuneInString (b :: t)).2).length ≤ c := by
        rw [List.length_drop]; simp only [List.length_cons]; omega
      by_cases hb : b.val < 0x80
      · have hd := decode_ascii b t hb
        have hco : utf8.coerceAux (c + 1) (b :: t) = b :: utf8.coerceAux c t := by
          have hne : ¬ (b.val = utf8.RuneError ∧ True) := by
            unfold utf8.RuneError
            omega
          rw [utf8.coerceAux]
          simp only [hd]
          rw [if_neg hne]
          rfl
        have hb2 : b.val < utf8.RuneSelf := hb
        rw [hco]
        by_cases hsafe : json.htmlSafeSet b = true
        · have he : json.stringAux (f + 1) (b :: t) = b :: json.stringAux f t := by
            simp [json.stringAux, hb2, hsafe]
          rw [he] at hg ⊢
          simp only [List.length_cons] at hg
          rw [List.cons_append, unquote_safe g b _ acc hsafe,
            ih t (by omega) f c g _ rest (by omega) (by omega) (by omega)]
          simp
        · have hsafe2 : json.htmlSafeSet b = false := by simpa using hsafe
          have he : json.stringAux (f + 1) (b :: t)
              = 0x5C :: json.escapeByte b ++ json.stringAux f t := by
            simp [json.stringAux, hb2, hsafe2]
          rw [he] at hg ⊢
          simp only [List.length_cons, List.length_append] at hg
          simp only [List.cons_append, List.append_assoc]
          rw [unquote_escape g b _ acc hb hsafe2,
            ih t (by omega) f c g _ rest (by omega) (by omega) (by omega)]
          simp
      · have hb2 : ¬ b.val < utf8.RuneSelf := hb
        by_cases hvalid : (utf8.DecodeRuneInString (b :: t)).1 = utf8.RuneError
            ∧ (utf8.DecodeRuneInString (b :: t)).2 = 1
        · have he : json.stringAux (f + 1) (b :: t)
              = [0x5C, 0x75, 0x66, 0x66, 0x66, 0x64] ++ json.stringAux f t := by
            rw [json.stringAux]
            simp only [hb2, hvalid, and_self, if_false, if_true]
          have hco : utf8.coerceAux (c + 1) (b :: t)
              = [0xEF, 0xBF, 0xBD] ++ utf8.coerceAux c t := by
            rw [utf8.coerceAux]
            simp only [hvalid, and_self, if_true]
          rw [he] at hg ⊢
          simp only [List.length_cons, List.length_append, List.length_nil] at hg
          rw [hco, List.append_assoc, unquote_replacement g _ acc,
            ih t (by omega) f c g _ rest (by omega) (by omega) (by omega)]
          simp
        · have hne : utf8.DecodeRuneInString (b :: t) ≠ (utf8.RuneError, 1) := by
            intro h
            exact hvalid (by rw [h]; exact ⟨rfl, rfl⟩)
          have hco : utf8.coerceAux (c + 1) (b :: t)
              = (b :: t).take (utf8.DecodeRuneInString (b :: t)).2
                ++ utf8.coerceAux c ((b :: t).drop (utf8.DecodeRuneInString (b :: t)).2) := by
            rw [utf8.coerceAux]
            simp only [hvalid, if_false]
          rw [hco, ← List.append_assoc]
          by_cases hsep : (utf8.DecodeRuneInString (b :: t)).1 = 0x2028
              ∨ (utf8.DecodeRuneInString (b :: t)).1 = 0x2029
          · have he : json.stringAux (f + 1) (b :: t)
                = [0x5C, 0x75, 0x32, 0x30, 0x32,
                    json.hex ((utf8.DecodeRuneInString (b :: t)).1 % 16)]
                  ++ json.stringAux f
                      ((b :: t).drop (utf8.DecodeRuneInString (b :: t)).2) := by
              rw [json.stringAux]
              simp only [hb2, hvalid, hsep, if_false, if_true]
            rw [he] at hg ⊢
            simp only [List.length_cons, List.length_append, List.length_nil] at hg
            rw [List.append_assoc, unquote_separator g b t _ acc hb hsep,
              ih _ hdl f c g _ rest hdf hdc (by omega)]
          · have he : json.stringAux (f + 1) (b :: t)
                = (b :: t).take (utf8.DecodeRuneInString (b :: t)).2
                  ++ json.stringAux f
                      ((b :: t).drop (utf8.DecodeRuneInString (b :: t)).2) := by
              rw [json.stringAux]
              simp only [hb2, hvalid, hsep, if_false]
            rw [he] at hg ⊢
            simp only [List.length_append, List.length_take, List.length_cons] at hg
            rw [List.append_assoc, unquote_rune g b t _ acc hb hne,
              ih _ hdl f c g _ rest hdf hdc (by omega)]

/-- Coercion leaves a valid UTF-8 string as it is. -/
theorem coerceAux_valid (n : Nat) :
    ∀ (s : GoString), s.length ≤ n → ∀ (v c : Nat), s.length ≤ c →
      utf8.ValidStringAux v s = true → utf8.coerceAux c s = s := by
  induction n with
  | zero =>
    intro s hs v c _ _
    have : s = [] := List.length_eq_zero.mp (by omega)
    subst this
    cases c <;> rfl
  | succ n ih =>
    intro s hs v c hc hv
    cases s with
    | nil => cases c <;> rfl
    | cons b t =>
      obtain ⟨c, rfl⟩ : ∃ c', c = c' + 1 := ⟨c - 1, by simp at hc; omega⟩
      obtain ⟨v, rfl⟩ : ∃ v', v = v' + 1 := by
        cases v with
        | zero => simp [utf8.ValidStringAux] at hv
        | succ v => exact ⟨v, rfl⟩
      have hw := decode_width b t
      simp only [List.length_cons] at hs hc hw
      simp only [utf8.ValidStringAux] at hv
      have hvalid : ¬ ((utf8.DecodeRuneInString (b :: t)).1 = utf8.RuneError
          ∧ (utf8.DecodeRuneInString (b :: t)).2 = 1) := by
        intro h
        simp [h] at hv
      rw [if_neg hvalid] at hv
      rw [utf8.coerceAux]
      simp only [hvalid, if_false]
      rw [ih _ (by rw [List.length_drop]; simp only [List.length_cons]; omega) v c
        (by rw [List.length_drop]; simp only [List.length_cons]; omega) hv,
        List.take_append_drop]

theorem coerce_valid (s : GoString) (hv : utf8.ValidString s = true) : utf8.coerce s = s :=
  coerceAux_valid s.length s (Nat.le_refl _) s.length s.length (Nat.le_refl _) hv

/-- Reading back an encoded string: the string coerced to valid UTF-8. -/
theorem decodeString_encodeString (s rest : GoString) :
    json.decodeString (json.encodeString s ++ rest) = some (utf8.coerce s, rest) := by
  unfold json.encodeString json.decodeString
  simp only [List.cons_append, List.append_assoc, List.singleton_append, if_true]
  have h := unquote_stringAux s.length s (Nat.le_refl _) s.length s.length
    (json.stringAux s.length s ++ 0x22 :: rest).length [] rest (Nat.le_refl _) (Nat.le_refl _)
    (by simp)
  simpa [utf8.coerce] using h

end StringRoundTrip

/-! ## Reading back an encoded document -/

section DocumentRoundTrip

theorem skipSpace_cons (c : Fin 256) (rest : GoString) (h : json.isSpace c = false) :
    json.skipSpace (c :: rest) = c :: rest := by
  simp [json.skipSpace, h]

theorem encodeString_eq (s rest : GoString) :
    json.encodeString s ++ rest = 0x22 :: (json.stringAux s.length s ++ 0x22 :: rest) := by
  simp [json.encodeString]

theorem skipSpace_encodeString (s rest : GoString) :
    json.skipSpace (json.encodeString s ++ rest) = json.encodeString s ++ rest := by
  rw [encodeString_eq]
  exact skipSpace_cons _ _ rfl

theorem encodeString_length (s rest : GoString) :
    2 + rest.length ≤ (json.encodeString s ++ rest).length := by
  rw [encodeString_eq]
  simp only [List.length_cons, List.length_append]
  omega

/-- Reading back one member of an object. -/
theorem decodeMembers_step (f : Nat) (k v tail : GoString) (sep : Fin 256) (p : ProjectInfo)
    (hsep : json.isSpace sep = false) :
    json.decodeMembers (f + 1)
        (json.encodeString k ++ 0x3A :: (json.encodeString v ++ sep :: tail)) p
      = match json.setField p (utf8.coerce k) (utf8.coerce v) with
        | none => none
        | some p1 =>
          if sep = 0x2C then json.decodeMembers f tail p1
          else if sep = 0x7D then some (p1, tail)
          else none := by
  rw [json.decodeMembers]
  simp only [skipSpace_encodeString, decodeString_encodeString,
    skipSpace_cons 0x3A _ rfl, if_true, skipSpace_cons sep _ hsep]

/-- The member names are valid UTF-8: coercion leaves them as they are. -/
theorem coerce_fieldNames :
    utf8.coerce (str "id") = str "id" ∧ utf8.coerce (str "name") = str "name"
      ∧ utf8.coerce (str "description") = str "description"
      ∧ utf8.coerce (str "setup_at") = str "setup_at"
      ∧ utf8.coerce (str "created_at") = str "created_at" := by
  decide

/-- An object whose first member starts with a quote is not the empty object. -/
theorem decodeObject_members (s1 : GoString) (h : ∃ t, json.skipSpace s1 = 0x22 :: t) :
    json.decodeObject (0x7B :: s1)
      = json.decodeMembers s1.length s1 ⟨[], [], [], [], []⟩ := by
  obtain ⟨t, ht⟩ := h
  rw [json.decodeObject, skipSpace_cons 0x7B _ rfl]
  simp only [if_true]
  rw [ht]
  simp only [show ((0x22 : Fin 256) = 0x7D) = False from by decide, if_false]

/-- Reading back an encoded record: the record coerced to valid UTF-8. -/
theorem decodeObject_encode (p : ProjectInfo) (rest : GoString) :
    json.decodeObject (json.encodeProjectInfo p ++ rest) = some (p.coerce, rest) := by
  obtain ⟨k1, k2, k3, k4, k5⟩ := coerce_fieldNames
  have hform : json.encodeProjectInfo p ++ rest
      = 0x7B :: (json.encodeString (str "id") ++ 0x3A :: (json.encodeString p.ID ++ 0x2C ::
          (json.encodeString (str "name") ++ 0x3A :: (json.encodeString p.Name ++ 0x2C ::
          (json.encodeString (str "description") ++ 0x3A ::
            (json.encodeString p.Description ++ 0x2C ::
          (json.encodeString (str "setup_at") ++ 0x3A :: (json.encodeString p.SetupAt ++ 0x2C ::
          (json.encodeString (str "created_at") ++ 0x3A ::
            (json.encodeString p.CreatedAt ++ 0x7D :: rest)))))))))) := by
    simp only [json.encodeProjectInfo, json.encodeMembers, json.fieldNames, json.fieldValues,
      List.append_assoc, List.cons_append, List.nil_append, List.singleton_append,
      List.append_nil]
  rw [hform, decodeObject_members _ ⟨_, (skipSpace_encodeString _ _).trans
    (encodeString_eq _ _)⟩]
  obtain ⟨f, hf⟩ : ∃ f, (json.encodeString (str "id") ++ 0x3A :: (json.encodeString p.ID ++ 0x2C ::
          (json.encodeString (str "name") ++ 0x3A :: (json.encodeString p.Name ++ 0x2C ::
          (json.encodeString (str "description") ++ 0x3A ::
            (json.encodeString p.Description ++ 0x2C ::
          (json.encodeString (str "setup_at") ++ 0x3A :: (json.encodeString p.SetupAt ++ 0x2C ::
          (json.encodeString (str "created_at") ++ 0x3A ::
            (json.encodeString p.CreatedAt ++ 0x7D :: rest)))))))))).length = f + 5 := by
    have h := encodeString_length (str "id") (0x3A :: (json.encodeString p.ID ++ 0x2C ::
          (json.encodeString (str "name") ++ 0x3A :: (json.encodeString p.Name ++ 0x2C ::
          (json.encodeString (str "description") ++ 0x3A ::
            (json.encodeString p.Description ++ 0x2C ::
          (json.encodeString (str "setup_at") ++ 0x3A :: (json.encodeString p.SetupAt ++ 0x2C ::
          (json.encodeString (str "created_at") ++ 0x3A ::
            (json.encodeString p.CreatedAt ++ 0x7D :: rest))))))))))
    have h2 := encodeString_length p.ID (0x2C ::
          (json.encodeString (str "name") ++ 0x3A :: (json.encodeString p.Name ++ 0x2C ::
          (json.encodeString (str "description") ++ 0x3A ::
            (json.encodeString p.Description ++ 0x2C ::
          (json.encodeString (str "setup_at") ++ 0x3A :: (json.encodeString p.SetupAt ++ 0x2C ::
          (json.encodeString (str "created_at") ++ 0x3A ::
            (json.encodeString p.CreatedAt ++ 0x7D :: rest)))))))))
    simp only [List.length_cons] at h h2
    exact ⟨_, (Nat.sub_add_cancel (by omega)).symm⟩
  rw [hf]
  rw [decodeMembers_step _ _ _ _ 0x2C _ rfl, k1]
  simp only [show json.setField ⟨[], [], [], [], []⟩ (str "id") (utf8.coerce p.ID)
    = some ⟨utf8.coerce p.ID, [], [], [], []⟩ from rfl, if_true]
  rw [decodeMembers_step _ _ _ _ 0x2C _ rfl, k2]
  simp only [show json.setField ⟨utf8.coerce p.ID, [], [], [], []⟩ (str "name")
      (utf8.coerce p.Name)
    = some ⟨utf8.coerce p.ID, utf8.coerce p.Name, [], [], []⟩ from rfl, if_true]
  rw [decodeMembers_step _ _ _ _ 0x2C _ rfl, k3]
  simp only [show json.setField ⟨utf8.coerce p.ID, utf8.coerce p.Name, [], [], []⟩
      (str "description") (utf8.coerce p.Description)
    = some ⟨utf8.coerce p.ID, utf8.coerce p.Name, utf8.coerce p.Description, [], []⟩
      from rfl, if_true]
  rw [decodeMembers_step _ _ _ _ 0x2C _ rfl, k4]
  simp only [show json.setField
      ⟨utf8.coerce p.ID, utf8.coerce p.Name, utf8.coerce p.Description, [], []⟩
      (str "setup_at") (utf8.coerce p.SetupAt)
    = some ⟨utf8.coerce p.ID, utf8.coerce p.Name, utf8.coerce p.Description,
        utf8.coerce p.SetupAt, []⟩ from rfl, if_true]
  rw [decodeMembers_step _ _ _ _ 0x7D _ rfl, k5]
  simp only [show json.setField
      ⟨utf8.coerce p.ID, utf8.coerce p.Name, utf8.coerce p.Description,
        utf8.coerce p.SetupAt, []⟩ (str "created_at") (utf8.coerce p.CreatedAt)
    = some p.coerce from rfl,
    show ((0x7D : Fin 256) = 0x2C) = False from by decide, if_false, if_true]

theorem encodeProjectInfo_eq (p : ProjectInfo) (rest : GoString) :
    ∃ t, json.encodeProjectInfo p ++ rest = 0x7B :: t := by
  exact ⟨_, by rw [json.encodeProjectInfo]; rfl⟩

theorem encodeElems_length (p : ProjectInfo) (ps : List ProjectInfo) (rest : GoString) :
    ps.length + 1 ≤ (json.encodeElems (p :: ps) ++ rest).length := by
  induction ps generalizing p with
  | nil => simp [json.encodeElems, json.encodeProjectInfo]
  | cons q qs ih =>
    have h := ih q
    simp only [json.encodeElems, List.length_append, List.length_cons] at h ⊢
    omega

/-- Reading back the elements of an encoded array. -/
theorem decodeElems_encode (ps : List ProjectInfo) :
    ∀ (p : ProjectInfo) (f : Nat) (acc : List ProjectInfo) (rest : GoString),
      ps.length < f →
      json.decodeElems f (json.encodeElems (p :: ps) ++ 0x5D :: rest) acc
        = some (acc ++ (p :: ps).map ProjectInfo.coerce, rest) := by
  induction ps with
  | nil =>
    intro p f acc rest hf
    obtain ⟨f, rfl⟩ : ∃ f', f = f' + 1 := ⟨f - 1, by omega⟩
    rw [json.encodeElems, json.decodeElems, decodeObject_encode p _]
    simp only [skipSpace_cons 0x5D _ rfl,
      show ((0x5D : Fin 256) = 0x2C) = False from by decide, if_false, if_true,
      List.map_cons, List.map_nil]
  | cons q qs ih =>
    intro p f acc rest hf
    obtain ⟨f, rfl⟩ : ∃ f', f = f' + 1 := ⟨f - 1, by omega⟩
    simp only [List.length_cons] at hf
    rw [json.encodeElems, List.append_assoc, json.decodeElems, decodeObject_encode p _]
    simp only [List.cons_append, skipSpace_cons 0x2C _ rfl, if_true]
    rw [ih q f (acc ++ [p.coerce]) rest (by omega)]
    simp

/-- Reading back an encoded slice: the slice coerced to valid UTF-8. -/
theorem decodeProjects_encode (info : Slice ProjectInfo) (rest : GoString) :
    json.decodeProjects (json.encodeProjects info ++ rest)
      = some (coerceProjects info, rest) := by
  cases info with
  | nil =>
    have h : json.encodeProjects Slice.nil ++ rest = 0x6E :: 0x75 :: 0x6C :: 0x6C :: rest := rfl
    rw [h, json.decodeProjects, skipSpace_cons 0x6E _ rfl]
    simp only [show ((0x6E : Fin 256) = 0x5B) = False from by decide, if_false]
    rfl
  | mk elems =>
    cases elems with
    | nil =>
      have h : json.encodeProjects (Slice.mk []) ++ rest = 0x5B :: 0x5D :: rest := rfl
      rw [h, json.decodeProjects, skipSpace_cons 0x5B _ rfl]
      simp only [skipSpace_cons 0x5D _ rfl, if_true]
      rfl
    | cons p ps =>
      have h : json.encodeProjects (Slice.mk (p :: ps)) ++ rest
          = 0x5B :: (json.encodeElems (p :: ps) ++ 0x5D :: rest) := by
        simp [json.encodeProjects]
      obtain ⟨t, ht⟩ : ∃ t, json.encodeElems (p :: ps) ++ 0x5D :: rest = 0x7B :: t := by
        cases ps with
        | nil => exact encodeProjectInfo_eq p _
        | cons q qs =>
          obtain ⟨t, ht⟩ := encodeProjectInfo_eq p
            (0x2C :: json.encodeElems (q :: qs) ++ 0x5D :: rest)
          exact ⟨t, by rw [json.encodeElems, List.append_assoc]; exact ht⟩
      have hdec := decodeElems_encode ps p
        (json.encodeElems (p :: ps) ++ 0x5D :: rest).length [] rest
        (by have := encodeElems_length p ps (0x5D :: rest); omega)
      rw [h, json.decodeProjects, skipSpace_cons 0x5B _ rfl]
      simp only [if_true]
      rw [hdec, ht, skipSpace_cons 0x7B _ rfl]
      simp only [show ((0x7B : Fin 256) = 0x5D) = False from by decide, if_false,
        List.nil_append]
      rfl

/-- Unmarshalling the line `fmt.Println` prints for a record. -/
theorem Unmarshal_line_ProjectInfo (p : ProjectInfo) :
    json.UnmarshalProjectInfo (json.encodeProjectInfo p ++ [0x0A]) = some p.coerce := by
  rw [json.UnmarshalProjectInfo, decodeObject_encode p _]
  rfl

/-- Unmarshalling the line `fmt.Println` prints for a slice. -/
theorem Unmarshal_line_Projects (info : Slice ProjectInfo) :
    json.UnmarshalProjects (json.encodeProjects info ++ [0x0A])
      = some (coerceProjects info) := by
  rw [json.UnmarshalProjects, decodeProjects_encode info _]
  rfl

/-- Coercion leaves a record with valid UTF-8 fields as it is. -/
theorem coerce_valid_record (p : ProjectInfo) (hp : p.ValidUTF8 = true) : p.coerce = p := by
  simp only [ProjectInfo.ValidUTF8, Bool.and_eq_true] at hp
  obtain ⟨⟨⟨⟨v1, v2⟩, v3⟩, v4⟩, v5⟩ := hp
  simp only [ProjectInfo.coerce, coerce_valid _ v1, coerce_valid _ v2, coerce_valid _ v3,
    coerce_valid _ v4, coerce_valid _ v5]

/-- Coercion leaves a slice of records with valid UTF-8 fields as it is. -/
theorem coerce_valid_projects (info : Slice ProjectInfo)
    (hv : ∀ q ∈ info.toList, q.ValidUTF8 = true) : coerceProjects info = info := by
  cases info with
  | nil => rfl
  | mk elems =>
    simp only [coerceProjects, Slice.mk.injEq]
    have h : ∀ q ∈ elems, q.coerce = q := fun q hq => coerce_valid_record q (hv q hq)
    calc elems.map ProjectInfo.coerce = elems.map id := List.map_congr_left h
      _ = elems := List.map_id elems

end DocumentRoundTrip

/-! ## The commands -/

section Claims

variable {σ : Type}

/-- C1: the delete command with `--silent` makes exactly one client call,
`DeleteAPIProject`, and nothing else. Without `--silent` it makes exactly two client
calls, `DeleteAPIProject` then `GetAPIProjects`, followed by exactly one output
event that carries the list `GetAPIProjects` returned: with `--json` the line of
the JSON document of that list (it unmarshals to that list, coerced to valid UTF-8,
which is the list itself when its strings are valid UTF-8), otherwise the table
with one row per fetched record. -/
theorem C1_delete_calls (c : Client σ) (cmd : Command) (args : List GoString) (w : World σ) :
    let key := (configuration.LocalConfig cmd).Key.Value
    let project :=
      if h : 0 < args.length then args[0] else (configuration.LocalConfig cmd).Project.Value
    let fetched := c.GetAPIProjects (c.DeleteAPIProject w.server cmd key project) cmd key
    if utils.GetBoolFlag cmd "silent" = true then
      newEvents w (projectsDeleteCmd.Run c cmd args w) = [Event.DeleteAPIProject key project]
    else
      clientCalls (newEvents w (projectsDeleteCmd.Run c cmd args w))
          = [Event.DeleteAPIProject key project, Event.GetAPIProjects key]
        ∧ projectsDeleteCmd.Run c cmd args w
          = printProjectsInfo fetched.2 (utils.GetBoolFlag cmd "json")
              { server := fetched.1,
                trace := w.trace
                  ++ [Event.DeleteAPIProject key project, Event.GetAPIProjects key] }
        ∧ (if utils.GetBoolFlag cmd "json" = true then
            newEvents w (projectsDeleteCmd.Run c cmd args w)
                = [Event.DeleteAPIProject key project, Event.GetAPIProjects key,
                   Event.stdout (json.encodeProjects fetched.2 ++ [0x0A])]
              ∧ json.UnmarshalProjects (json.encodeProjects fetched.2 ++ [0x0A])
                = some (coerceProjects fetched.2)
              ∧ ((∀ p ∈ fetched.2.toList, p.ValidUTF8 = true)
                  → coerceProjects fetched.2 = fetched.2)
          else
            ∃ rows,
              newEvents w (projectsDeleteCmd.Run c cmd args w)
                  = [Event.DeleteAPIProject key project, Event.GetAPIProjects key,
                     Event.PrintTable
                       [str "id", str "name", str "description", str "setup_at",
                        str "created_at"] rows]
                ∧ rows.toList
                  = fetched.2.toList.map
                      (fun p : ProjectInfo =>
                        [p.ID, p.Name, p.Description, p.SetupAt, p.CreatedAt])) := by
  intro key project fetched
  have hrun := delete_run c cmd args w key project rfl rfl
  by_cases hs : utils.GetBoolFlag cmd "silent" = true
  · rw [if_pos hs] at hrun
    rw [if_pos hs, hrun]
    exact newEvents_append w _ _ rfl
  · rw [if_neg hs] at hrun
    rw [if_neg hs]
    refine ⟨?_, hrun, ?_⟩
    · obtain ⟨e, -, he, -, ht⟩ := printProjectsInfo_trace fetched.2
        (utils.GetBoolFlag cmd "json")
        { server := fetched.1,
          trace := w.trace ++ [Event.DeleteAPIProject key project, Event.GetAPIProjects key] }
      rw [hrun, newEvents_append w _ _ (by rw [ht, List.append_assoc])]
      have h1 : (Event.DeleteAPIProject key project).isClientCall = true := rfl
      have h2 : (Event.GetAPIProjects key).isClientCall = true := rfl
      simp [clientCalls, List.filter_cons, he, h1, h2]
    · by_cases hj : utils.GetBoolFlag cmd "json" = true
      · rw [if_pos hj]
        rw [hj, printProjectsInfo_json] at hrun
        refine ⟨?_, Unmarshal_line_Projects _, coerce_valid_projects _⟩
        rw [hrun]
        exact newEvents_append w _ _ (by simp)
      · rw [if_neg hj]
        have hj2 : utils.GetBoolFlag cmd "json" = false := by simpa using hj
        rw [hj2, printProjectsInfo_table] at hrun
        refine ⟨tableRows fetched.2, ?_, tableRows_toList _⟩
        rw [hrun]
        exact newEvents_append w _ _ (by simp)

/-- C2: in the get, delete and update commands the project identifier passed to the
client is `args[0]` when a positional argument is given and the configured default
when none is; it is one of the two as they are, nothing else. -/
theorem C2_identifier_resolution (c : Client σ) (cmd : Command) (args : List GoString)
    (w : World σ) :
    let key := (configuration.LocalConfig cmd).Key.Value
    let d := (configuration.LocalConfig cmd).Project.Value
    let id := match args with
      | [] => d
      | a :: _ => a
    clientCalls (newEvents w (projectsGetCmd.Run c cmd args w)) = [Event.GetAPIProject key id]
      ∧ clientCalls (newEvents w (projectsDeleteCmd.Run c cmd args w))
          = Event.DeleteAPIProject key id
              :: (if utils.GetBoolFlag cmd "silent" = true then [] else [Event.GetAPIProjects key])
      ∧ clientCalls (newEvents w (projectsUpdateCmd.Run c cmd args w))
          = [Event.UpdateAPIProject key id (cmd.FlagValueString "name")
              (cmd.FlagValueString "description")] := by
  intro key d id
  have hid : id = (if h : 0 < args.length then args[0] else d) := (resolve_eq args d).symm
  refine ⟨?_, ?_, ?_⟩
  · obtain ⟨e, -, he, -, hn⟩ := newEvents_call_print w _ _ (Event.GetAPIProject key id)
      (printProjectInfo _ (utils.GetBoolFlag cmd "json")) (printProjectInfo_trace _ _ _)
      (get_run c cmd args w key id rfl hid)
    have h1 : (Event.GetAPIProject key id).isClientCall = true := rfl
    rw [hn]
    simp [clientCalls, List.filter_cons, he, h1]
  · have hrun := delete_run c cmd args w key id rfl hid
    have h1 : (Event.DeleteAPIProject key id).isClientCall = true := rfl
    have h2 : (Event.GetAPIProjects key).isClientCall = true := rfl
    by_cases hs : utils.GetBoolFlag cmd "silent" = true
    · rw [if_pos hs] at hrun
      rw [if_pos hs, hrun, newEvents_append w _ _ rfl]
      simp [clientCalls, List.filter_cons, h1]
    · rw [if_neg hs] at hrun
      obtain ⟨e, -, he, -, ht⟩ := printProjectsInfo_trace
        (c.GetAPIProjects (c.DeleteAPIProject w.server cmd key id) cmd key).2
        (utils.GetBoolFlag cmd "json")
        { server := (c.GetAPIProjects (c.DeleteAPIProject w.server cmd key id) cmd key).1,
          trace := w.trace ++ [Event.DeleteAPIProject key id, Event.GetAPIProjects key] }
      rw [if_neg hs, hrun, newEvents_append w _ _ (by rw [ht, List.append_assoc])]
      simp [clientCalls, List.filter_cons, he, h1, h2]
  · have hrun := update_run c cmd args w key id _ _ rfl hid rfl rfl
    have h1 : (Event.UpdateAPIProject key id (cmd.FlagValueString "name")
          (cmd.FlagValueString "description")).isClientCall = true := rfl
    by_cases hs : utils.GetBoolFlag cmd "silent" = true
    · rw [if_pos hs] at hrun
      rw [hrun, newEvents_append w _ _ rfl]
      simp [clientCalls, List.filter_cons, h1]
    · rw [if_neg hs] at hrun
      obtain ⟨e, -, he, -, hn⟩ := newEvents_call_print w _ _ _
        (printProjectInfo _ (utils.GetBoolFlag cmd "json")) (printProjectInfo_trace _ _ _) hrun
      rw [hn]
      simp [clientCalls, List.filter_cons, he, h1]

/-- The example of C2: with positional argument `proj-x` and configured default
`proj-y`, get, delete and update call the client with `proj-x`. -/
theorem C2_identifier_resolution_example :
    clientCalls (newEvents exampleWorld
        (projectsGetCmd.Run memClient (exampleCmd [] [] []) [str "proj-x"] exampleWorld))
      = [Event.GetAPIProject (str "key") (str "proj-x")]
    ∧ clientCalls (newEvents exampleWorld
        (projectsDeleteCmd.Run memClient (exampleCmd [] [] []) [str "proj-x"] exampleWorld))
      = [Event.DeleteAPIProject (str "key") (str "proj-x"), Event.GetAPIProjects (str "key")]
    ∧ clientCalls (newEvents exampleWorld
        (projectsUpdateCmd.Run memClient (exampleCmd [] [] []) [str "proj-x"] exampleWorld))
      = [Event.UpdateAPIProject (str "key") (str "proj-x") [] []] :=
  C2_identifier_resolution memClient (exampleCmd [] [] []) [str "proj-x"] exampleWorld

/-- C3: when the `--name` flag or the `--description` flag was not set, the update
command ends in an error and the world is left as it was: no event, no client call. -/
theorem C3_update_fails_fast (c : Client σ) (cmd : Command) (args : List GoString)
    (w : World σ) (h : cmd.Changed "name" = false ∨ cmd.Changed "description" = false) :
    (projectsUpdateCmd.execute c cmd args w).1 ≠ none
      ∧ (projectsUpdateCmd.execute c cmd args w).2 = w
      ∧ clientCalls (newEvents w (projectsUpdateCmd.execute c cmd args w).2) = [] := by
  have hm : ([("name" : String), "description"].filter (fun f => !cmd.Changed f)) ≠ [] := by
    rcases h with h | h
    · simp [List.filter_cons, h]
    · cases hn : cmd.Changed "name" <;> simp [List.filter_cons, h, hn]
  have he : (([("name" : String), "description"].filter (fun f => !cmd.Changed f)).isEmpty)
      = false := by
    cases hl : [("name" : String), "description"].filter (fun f => !cmd.Changed f) with
    | nil => exact absurd hl hm
    | cons a l => rfl
  have hx : projectsUpdateCmd.execute c cmd args w
      = (some ([("name" : String), "description"].filter (fun f => !cmd.Changed f)), w) := by
    simp only [projectsUpdateCmd.execute, cobra.execute, projectsUpdateCmd.requiredFlags, he]
    rfl
  rw [hx]
  refine ⟨by simp, rfl, ?_⟩
  simp [newEvents, clientCalls]

/-- A run of C3: `update --name n` without `--description` ends in the error that
names `description`, with no event. -/
theorem C3_update_fails_fast_witness :
    ((exampleCmd (str "n") [] ["name"]).Changed "name" = false
        ∨ (exampleCmd (str "n") [] ["name"]).Changed "description" = false)
      ∧ (projectsUpdateCmd.execute memClient (exampleCmd (str "n") [] ["name"]) []
            exampleWorld).1 ≠ none
      ∧ (projectsUpdateCmd.execute memClient (exampleCmd (str "n") [] ["name"]) []
            exampleWorld).2 = exampleWorld
      ∧ clientCalls (newEvents exampleWorld
          (projectsUpdateCmd.execute memClient (exampleCmd (str "n") [] ["name"]) []
            exampleWorld).2) = [] :=
  ⟨Or.inr (by decide),
   C3_update_fails_fast memClient (exampleCmd (str "n") [] ["name"]) [] exampleWorld
     (Or.inr (by decide))⟩

/-- C4: in table mode `printProjectsInfo` hands `utils.PrintTable` one table of
`len(info) + 1` lines: the header `id, name, description, setup_at, created_at`
and one row per record, each of arity 5, whose `i`-th value is the field of the
record that the `i`-th header names. -/
theorem C4_table_lines (info : Slice ProjectInfo) (w : World σ) :
    ∃ rows,
      newEvents w (printProjectsInfo info false w)
          = [Event.PrintTable
              [str "id", str "name", str "description", str "setup_at", str "created_at"] rows]
        ∧ (tableLines
              [str "id", str "name", str "description", str "setup_at", str "created_at"]
              rows).length = info.len + 1
        ∧ rows.len = info.len
        ∧ ∀ k, k < info.len → ∃ p row, info.toList[k]? = some p ∧ rows.toList[k]? = some row
            ∧ row.length = 5
            ∧ ∀ i, i < 5 →
                ([str "id", str "name", str "description", str "setup_at",
                  str "created_at"][i]?).bind p.column = row[i]? := by
  refine ⟨tableRows info, ?_, ?_, ?_, ?_⟩
  · exact newEvents_append w _ _ (by rw [printProjectsInfo_table])
  · simp [tableLines, Slice.len, tableRows_toList]
  · simp [Slice.len, tableRows_toList]
  · intro k hk
    have hk2 : k < info.toList.length := hk
    obtain ⟨p, hp⟩ : ∃ p, info.toList[k]? = some p := ⟨_, List.getElem?_eq_getElem hk2⟩
    refine ⟨p, [p.ID, p.Name, p.Description, p.SetupAt, p.CreatedAt], hp, ?_, rfl, ?_⟩
    · rw [tableRows_toList, List.getElem?_map, hp]
      rfl
    · intro i hi
      have hne : ∀ a b : String, decide (str a = str b) = false → str a ≠ str b :=
        fun a b h => by simpa using h
      interval_cases i
      · rfl
      · simp [ProjectInfo.column, hne "name" "id" (by decide)]
      · simp [ProjectInfo.column, hne "description" "id" (by decide),
          hne "description" "name" (by decide)]
      · simp [ProjectInfo.column, hne "setup_at" "id" (by decide),
          hne "setup_at" "name" (by decide), hne "setup_at" "description" (by decide)]
      · simp [ProjectInfo.column, hne "created_at" "id" (by decide),
          hne "created_at" "name" (by decide), hne "created_at" "description" (by decide),
          hne "created_at" "setup_at" (by decide)]

/-- C5, as amended: when every string field is valid UTF-8, unmarshalling the JSON
line that `printProjectsInfo` prints for a slice gives back that slice, and
unmarshalling the line that `printProjectInfo` prints for a record gives back that
record. -/
theorem C5_json_round_trip (info : Slice ProjectInfo) (x : ProjectInfo) (w : World σ)
    (hinfo : ∀ p ∈ info.toList, p.ValidUTF8 = true) (hx : x.ValidUTF8 = true) :
    json.UnmarshalProjects (stdoutBytes (newEvents w (printProjectsInfo info true w)))
        = some info
      ∧ json.UnmarshalProjectInfo (stdoutBytes (newEvents w (printProjectInfo x true w)))
        = some x := by
  constructor
  · rw [newEvents_append w _ _ (by rw [printProjectsInfo_json])]
    simp only [stdoutBytes, List.append_nil]
    rw [Unmarshal_line_Projects info, coerce_valid_projects info hinfo]
  · rw [newEvents_append w _ _ (by rw [printProjectInfo_json])]
    simp only [stdoutBytes, List.append_nil]
    rw [Unmarshal_line_ProjectInfo x, coerce_valid_record x hx]

/-- A run of C5 on names outside ASCII (`é`, the line separator U+2028) and on
characters the encoder escapes. -/
theorem C5_json_round_trip_witness :
    (∀ p ∈ unicodeProjects.toList, p.ValidUTF8 = true)
      ∧ unicodeProject.ValidUTF8 = true
      ∧ json.UnmarshalProjects (stdoutBytes (newEvents exampleWorld
          (printProjectsInfo unicodeProjects true exampleWorld))) = some unicodeProjects
      ∧ json.UnmarshalProjectInfo (stdoutBytes (newEvents exampleWorld
          (printProjectInfo unicodeProject true exampleWorld))) = some unicodeProject :=
  ⟨by decide, by decide,
   C5_json_round_trip unicodeProjects unicodeProject exampleWorld (by decide) (by decide)⟩

/-- C5 as stated fails on a record whose name is the single byte 0xFF (not valid
UTF-8): the printed document unmarshals to a record whose name is U+FFFD, not to
the record printed; and the record with name 0xFE prints the very same bytes, so no
reader of the output can tell the two apart. -/
theorem C5_round_trip_fails_on_invalid_utf8 :
    json.UnmarshalProjects (stdoutBytes (newEvents exampleWorld
        (printProjectsInfo (Slice.mk [⟨[], [0xFF], [], [], []⟩]) true exampleWorld)))
      = some (Slice.mk [⟨[], [0xEF, 0xBF, 0xBD], [], [], []⟩])
    ∧ json.UnmarshalProjects (stdoutBytes (newEvents exampleWorld
        (printProjectsInfo (Slice.mk [⟨[], [0xFF], [], [], []⟩]) true exampleWorld)))
      ≠ some (Slice.mk [⟨[], [0xFF], [], [], []⟩])
    ∧ stdoutBytes (newEvents exampleWorld
        (printProjectsInfo (Slice.mk [⟨[], [0xFF], [], [], []⟩]) true exampleWorld))
      = stdoutBytes (newEvents exampleWorld
        (printProjectsInfo (Slice.mk [⟨[], [0xFE], [], [], []⟩]) true exampleWorld))
    ∧ json.UnmarshalProjectInfo (stdoutBytes (newEvents exampleWorld
        (printProjectInfo ⟨[], [0xFF], [], [], []⟩ true exampleWorld)))
      ≠ some ⟨[], [0xFF], [], [], []⟩ := by
  refine ⟨by decide, by decide, by decide, by decide⟩

/-- C6: a create run without `--silent` and without `--json` makes exactly one
client call, `CreateAPIProject`, with the name `args[0]` when a positional argument
is given and the `--name` flag otherwise, and with the `--description` flag; it
then hands `utils.PrintTable` the header and exactly one row, the fields of the
record the call returned. -/
theorem C6_create_prints_row (c : Client σ) (cmd : Command) (args : List GoString)
    (w : World σ) (hs : utils.GetBoolFlag cmd "silent" = false)
    (hj : utils.GetBoolFlag cmd "json" = false) :
    let key := (configuration.LocalConfig cmd).Key.Value
    let name := match args with
      | [] => cmd.FlagValueString "name"
      | a :: _ => a
    let description := cmd.FlagValueString "description"
    let info := (c.CreateAPIProject w.server cmd key name description).2
    newEvents w (projectsCreateCmd.Run c cmd args w)
      = [Event.CreateAPIProject key name description,
         Event.PrintTable
           [str "id", str "name", str "description", str "setup_at", str "created_at"]
           (Slice.mk [[info.ID, info.Name, info.Description, info.SetupAt, info.CreatedAt]])] := by
  intro key name description info
  have hname : name = (if h : 0 < args.length then args[0] else cmd.FlagValueString "name") :=
    (resolve_eq args _).symm
  have hrun := create_run c cmd args w key name description rfl hname rfl
  rw [hs, hj] at hrun
  rw [if_neg (by simp), printProjectInfo_table] at hrun
  rw [hrun]
  apply newEvents_append
  simp [info]

/-- The scenario of C6: `create "My Project" --description "desc"` calls the client
with name `My Project` and description `desc`, then prints one row: the record the
client returned. -/
theorem C6_create_prints_row_witness :
    newEvents exampleWorld
        (projectsCreateCmd.Run memClient (exampleCmd [] (str "desc") ["description"])
          [str "My Project"] exampleWorld)
      = [Event.CreateAPIProject (str "key") (str "My Project") (str "desc"),
         Event.PrintTable
           [str "id", str "name", str "description", str "setup_at", str "created_at"]
           (Slice.mk [[str "My Project", str "My Project", str "desc", [], []]])] :=
  C6_create_prints_row memClient (exampleCmd [] (str "desc") ["description"])
    [str "My Project"] exampleWorld rfl rfl

/-- C7: for create, update and delete, the run with `--silent` and the run without
it (every other input the same) make the same single mutating client call with the
same arguments, and the run with `--silent` produces no output. -/
theorem C7_silent_same_action (c : Client σ) (cmd : Command) (args : List GoString)
    (w : World σ) :
    let quiet := cmd.setBool "silent" true
    let loud := cmd.setBool "silent" false
    let key := (configuration.LocalConfig cmd).Key.Value
    let id := match args with
      | [] => (configuration.LocalConfig cmd).Project.Value
      | a :: _ => a
    let name := match args with
      | [] => cmd.FlagValueString "name"
      | a :: _ => a
    ((newEvents w (projectsCreateCmd.Run c quiet args w)).filter Event.isMutation
        = [Event.CreateAPIProject key name (cmd.FlagValueString "description")]
      ∧ (newEvents w (projectsCreateCmd.Run c loud args w)).filter Event.isMutation
        = [Event.CreateAPIProject key name (cmd.FlagValueString "description")]
      ∧ outputs (newEvents w (projectsCreateCmd.Run c quiet args w)) = [])
    ∧ ((newEvents w (projectsUpdateCmd.Run c quiet args w)).filter Event.isMutation
        = [Event.UpdateAPIProject key id (cmd.FlagValueString "name")
            (cmd.FlagValueString "description")]
      ∧ (newEvents w (projectsUpdateCmd.Run c loud args w)).filter Event.isMutation
        = [Event.UpdateAPIProject key id (cmd.FlagValueString "name")
            (cmd.FlagValueString "description")]
      ∧ outputs (newEvents w (projectsUpdateCmd.Run c quiet args w)) = [])
    ∧ ((newEvents w (projectsDeleteCmd.Run c quiet args w)).filter Event.isMutation
        = [Event.DeleteAPIProject key id]
      ∧ (newEvents w (projectsDeleteCmd.Run c loud args w)).filter Event.isMutation
        = [Event.DeleteAPIProject key id]
      ∧ outputs (newEvents w (projectsDeleteCmd.Run c quiet args w)) = []) := by
  intro quiet loud key id name
  have hq : utils.GetBoolFlag quiet "silent" = true := by
    simp [quiet, utils.GetBoolFlag, Command.setBool]
  have hl : utils.GetBoolFlag loud "silent" = false := by
    simp [loud, utils.GetBoolFlag, Command.setBool]
  have hid : id = (if h : 0 < args.length then args[0]
      else (configuration.LocalConfig cmd).Project.Value) := (resolve_eq args _).symm
  have hname : name = (if h : 0 < args.length then args[0] else cmd.FlagValueString "name") :=
    (resolve_eq args _).symm
  have m1 : ∀ n d, (Event.CreateAPIProject key n d).isMutation = true := fun _ _ => rfl
  have m2 : ∀ n d, (Event.UpdateAPIProject key id n d).isMutation = true := fun _ _ => rfl
  have m3 : (Event.DeleteAPIProject key id).isMutation = true := rfl
  have m4 : (Event.GetAPIProjects key).isMutation = false := rfl
  have o1 : ∀ n d, (Event.CreateAPIProject key n d).isOutput = false := fun _ _ => rfl
  have o2 : ∀ n d, (Event.UpdateAPIProject key id n d).isOutput = false := fun _ _ => rfl
  have o3 : (Event.DeleteAPIProject key id).isOutput = false := rfl
  refine ⟨⟨?_, ?_, ?_⟩, ⟨?_, ?_, ?_⟩, ⟨?_, ?_, ?_⟩⟩
  · have hrun := create_run c quiet args w key name _ rfl hname rfl
    rw [if_pos hq] at hrun
    rw [hrun, newEvents_append w _ _ rfl]
    simp [List.filter_cons, m1]
    rfl
  · have hrun := create_run c loud args w key name _ rfl hname rfl
    rw [if_neg (by simp [hl])] at hrun
    obtain ⟨e, -, -, he, hn⟩ := newEvents_call_print w _ _ _
      (printProjectInfo _ (utils.GetBoolFlag loud "json")) (printProjectInfo_trace _ _ _) hrun
    rw [hn]
    simp [List.filter_cons, m1, he]
    rfl
  · have hrun := create_run c quiet args w key name _ rfl hname rfl
    rw [if_pos hq] at hrun
    rw [hrun, newEvents_append w _ _ rfl]
    simp [outputs, List.filter_cons, o1]
  · have hrun := update_run c quiet args w key id _ _ rfl hid rfl rfl
    rw [if_pos hq] at hrun
    rw [hrun, newEvents_append w _ _ rfl]
    simp [List.filter_cons, m2]
    exact ⟨rfl, rfl⟩
  · have hrun := update_run c loud args w key id _ _ rfl hid rfl rfl
    rw [if_neg (by simp [hl])] at hrun
    obtain ⟨e, -, -, he, hn⟩ := newEvents_call_print w _ _ _
      (printProjectInfo _ (utils.GetBoolFlag loud "json")) (printProjectInfo_trace _ _ _) hrun
    rw [hn]
    simp [List.filter_cons, m2, he]
    exact ⟨rfl, rfl⟩
  · have hrun := update_run c quiet args w key id _ _ rfl hid rfl rfl
    rw [if_pos hq] at hrun
    rw [hrun, newEvents_append w _ _ rfl]
    simp [outputs, List.filter_cons, o2]
  · have hrun := delete_run c quiet args w key id rfl hid
    rw [if_pos hq] at hrun
    rw [hrun, newEvents_append w _ _ rfl]
    simp [List.filter_cons, m3]
  · have hrun := delete_run c loud args w key id rfl hid
    rw [if_neg (by simp [hl])] at hrun
    obtain ⟨e, -, -, he, ht⟩ := printProjectsInfo_trace
      (c.GetAPIProjects (c.DeleteAPIProject w.server loud key id) loud key).2
      (utils.GetBoolFlag loud "json")
      { server := (c.GetAPIProjects (c.DeleteAPIProject w.server loud key id) loud key).1,
        trace := w.trace ++ [Event.DeleteAPIProject key id, Event.GetAPIProjects key] }
    rw [hrun, newEvents_append w _ _ (by rw [ht, List.append_assoc])]
    simp [List.filter_cons, m3, m4, he]
  · have hrun := delete_run c quiet args w key id rfl hid
    rw [if_pos hq] at hrun
    rw [hrun, newEvents_append w _ _ rfl]
    simp [outputs, List.filter_cons, o3]

/-- C8: whatever the record or the slice and whatever the `json` flag, a printer
produces exactly one output event, a JSON document or a table, never both. With
`json` set it is one write to standard output and `utils.PrintTable` is not called:
the bytes are the JSON document of the record (of the slice) followed by a newline,
the document itself holds no newline, and the line unmarshals to the record (the
slice) coerced to valid UTF-8, which is the record itself when its strings are valid
UTF-8. With `json` unset it is one call of `utils.PrintTable` with the header and
the rows of the record (of the slice), and nothing goes to standard output. -/
theorem C8_json_or_table (x : ProjectInfo) (info : Slice ProjectInfo) (jsonFlag : Bool)
    (w : World σ) :
    ((newEvents w (printProjectInfo x jsonFlag w)).length = 1
      ∧ ((newEvents w (printProjectInfo x jsonFlag w)).filter Event.isStdout).length
          = (if jsonFlag = true then 1 else 0)
      ∧ ((newEvents w (printProjectInfo x jsonFlag w)).filter Event.isPrintTable).length
          = (if jsonFlag = true then 0 else 1)
      ∧ (stdoutBytes (newEvents w (printProjectInfo x jsonFlag w))).count 0x0A
          = (if jsonFlag = true then 1 else 0))
    ∧ ((newEvents w (printProjectsInfo info jsonFlag w)).length = 1
      ∧ ((newEvents w (printProjectsInfo info jsonFlag w)).filter Event.isStdout).length
          = (if jsonFlag = true then 1 else 0)
      ∧ ((newEvents w (printProjectsInfo info jsonFlag w)).filter Event.isPrintTable).length
          = (if jsonFlag = true then 0 else 1)
      ∧ (stdoutBytes (newEvents w (printProjectsInfo info jsonFlag w))).count 0x0A
          = (if jsonFlag = true then 1 else 0))
    ∧ (if jsonFlag = true then
        (newEvents w (printProjectInfo x jsonFlag w)
            = [Event.stdout (json.encodeProjectInfo x ++ [0x0A])]
          ∧ (0x0A : Fin 256) ∉ json.encodeProjectInfo x
          ∧ json.UnmarshalProjectInfo (json.encodeProjectInfo x ++ [0x0A]) = some x.coerce
          ∧ (x.ValidUTF8 = true → x.coerce = x))
        ∧ (newEvents w (printProjectsInfo info jsonFlag w)
            = [Event.stdout (json.encodeProjects info ++ [0x0A])]
          ∧ (0x0A : Fin 256) ∉ json.encodeProjects info
          ∧ json.UnmarshalProjects (json.encodeProjects info ++ [0x0A])
              = some (coerceProjects info)
          ∧ ((∀ p ∈ info.toList, p.ValidUTF8 = true) → coerceProjects info = info))
      else
        newEvents w (printProjectInfo x jsonFlag w)
            = [Event.PrintTable
                [str "id", str "name", str "description", str "setup_at", str "created_at"]
                (Slice.mk [[x.ID, x.Name, x.Description, x.SetupAt, x.CreatedAt]])]
        ∧ ∃ rows,
            newEvents w (printProjectsInfo info jsonFlag w)
                = [Event.PrintTable
                    [str "id", str "name", str "description", str "setup_at",
                     str "created_at"] rows]
              ∧ rows.toList
                = info.toList.map
                    (fun p : ProjectInfo =>
                      [p.ID, p.Name, p.Description, p.SetupAt, p.CreatedAt])) := by
  cases jsonFlag
  · rw [newEvents_append w _ _ (by rw [printProjectInfo_table]),
      newEvents_append w _ _ (by rw [printProjectsInfo_table])]
    refine ⟨?_, ?_, ?_⟩
    · simp [List.filter_cons, Event.isStdout, Event.isPrintTable, stdoutBytes]
    · simp [List.filter_cons, Event.isStdout, Event.isPrintTable, stdoutBytes]
    · rw [if_neg (by simp)]
      exact ⟨rfl, tableRows info, rfl, tableRows_toList info⟩
  · rw [newEvents_append w _ _ (by rw [printProjectInfo_json]),
      newEvents_append w _ _ (by rw [printProjectsInfo_json])]
    have n1 := newline_not_mem _ (encodeProjectInfo_ge x)
    have n2 := newline_not_mem _ (encodeProjects_ge info)
    have h1 := List.count_eq_zero_of_not_mem n1
    have h2 := List.count_eq_zero_of_not_mem n2
    refine ⟨?_, ?_, ?_⟩
    · simp [List.filter_cons, Event.isStdout, Event.isPrintTable, stdoutBytes,
        List.count_append, h1]
    · simp [List.filter_cons, Event.isStdout, Event.isPrintTable, stdoutBytes,
        List.count_append, h2]
    · rw [if_pos rfl]
      exact ⟨⟨rfl, n1, Unmarshal_line_ProjectInfo x, coerce_valid_record x⟩,
        ⟨rfl, n2, Unmarshal_line_Projects info, coerce_valid_projects info⟩⟩

/-- C9: the rows `printProjectsInfo` hands to the table printer are the records of
the slice in their order: as many rows as records, and the `k`-th row is built from
the `k`-th record. -/
theorem C9_rows_in_order (info : Slice ProjectInfo) (w : World σ) :
    ∃ headers rows,
      newEvents w (printProjectsInfo info false w) = [Event.PrintTable headers rows]
        ∧ rows.len = info.len
        ∧ ∀ k : Nat, rows.toList[k]?
            = (info.toList[k]?).map
                (fun p : ProjectInfo => [p.ID, p.Name, p.Description, p.SetupAt, p.CreatedAt]) := by
  refine ⟨_, tableRows info, newEvents_append w _ _ (by rw [printProjectsInfo_table]), ?_, ?_⟩
  · simp [Slice.len, tableRows_toList]
  · intro k
    rw [tableRows_toList, List.getElem?_map]

/-- C10: in table mode the single-record printer does what the list printer does on
the one-element slice: the same call of `utils.PrintTable`, with the same header and
the same rows. -/
theorem C10_single_agrees_with_list (x : ProjectInfo) (w : World σ) :
    printProjectInfo x false w = printProjectsInfo (Slice.mk [x]) false w
      ∧ newEvents w (printProjectInfo x false w)
          = [Event.PrintTable
              [str "id", str "name", str "description", str "setup_at", str "created_at"]
              (Slice.mk [[x.ID, x.Name, x.Description, x.SetupAt, x.CreatedAt]])]
      ∧ newEvents w (printProjectsInfo (Slice.mk [x]) false w)
          = [Event.PrintTable
              [str "id", str "name", str "description", str "setup_at", str "created_at"]
              (Slice.mk [[x.ID, x.Name, x.Description, x.SetupAt, x.CreatedAt]])] := by
  have h : printProjectInfo x false w = printProjectsInfo (Slice.mk [x]) false w := by
    rw [printProjectInfo_table, printProjectsInfo_table]
    rfl
  refine ⟨h, ?_, ?_⟩
  · exact newEvents_append w _ _ (by rw [printProjectInfo_table])
  · rw [← h]
    exact newEvents_append w _ _ (by rw [printProjectInfo_table])

end Claims

end DopplerCLI
